import Mathlib

/-!
# AndroNet: packet decoder, flow table and forwarder

A shallow embedding of `packet_parser.cpp`, `session_manager.cpp` and
`socket_forwarder.cpp`, followed by the properties established about them.

Conventions of the embedding

* A `const uint8_t *` is an offset into the address space `mem : Nat → Nat` that
  starts at the first byte of the captured buffer; the byte stored at an offset
  is `mem off % 256`.  The `length` argument travels separately, as in the
  source, so that a read at an offset `≥ length` is observable: every decoder
  function returns the list of offsets it dereferenced next to its result.
* The host is little-endian (every Android ABI is): a `uint16_t` or `uint32_t`
  member of an overlaid header struct is loaded least-significant byte first,
  `ntohs` swaps the two bytes, and `inet_ntop` prints the four bytes of the
  loaded word in memory order.
* `int` is `Int`; `size_t` and `uint64_t` are `Nat` reduced modulo `2 ^ 64`
  where the source computes in them.
* The clock, the scalar members that `PacketInfo info;` leaves uninitialised,
  and the results of system calls are explicit arguments.
-/

namespace AndroNet

/-! ## Machine integers and memory -/

/-- Implicit conversion of an `int` (a value in `[-2^31, 2^31)`) to `size_t`:
a negative value wraps to `2^64 + x`, a non-negative one is unchanged. -/
def toSizeT (x : Int) : Nat :=
  if x < 0 then (x + 2 ^ 64).toNat else x.toNat

/-- Implicit conversion of a `size_t` to `int`: the low 32 bits, read as two's
complement. -/
def toInt32 (x : Nat) : Int :=
  if x % 2 ^ 32 < 2 ^ 31 then (x % 2 ^ 32 : Nat) else ((x % 2 ^ 32 : Nat) : Int) - 2 ^ 32

/-- Value of a result together with the buffer offsets that were dereferenced
to compute it, in program order. -/
structure Traced (α : Type) where
  val : α
  reads : List Nat

/-- The byte `p[off]`. -/
def byteAt (mem : Nat → Nat) (off : Nat) : Nat := mem off % 256

/-- Load of a `uint16_t` struct member at `off` on the little-endian host. -/
def load16 (mem : Nat → Nat) (off : Nat) : Nat :=
  byteAt mem off + 256 * byteAt mem (off + 1)

/-- Load of a `uint32_t` struct member at `off` on the little-endian host. -/
def load32 (mem : Nat → Nat) (off : Nat) : Nat :=
  byteAt mem off + 256 * byteAt mem (off + 1) + 65536 * byteAt mem (off + 2)
    + 16777216 * byteAt mem (off + 3)

/-- Offsets touched by a 16-bit load. -/
def span16 (off : Nat) : List Nat := [off, off + 1]

/-- Offsets touched by a 32-bit load. -/
def span32 (off : Nat) : List Nat := [off, off + 1, off + 2, off + 3]

/-! ## packet_parser.h -/

def sizeof_IPHeader : Nat := 20
def sizeof_TCPHeader : Nat := 20
def sizeof_UDPHeader : Nat := 8

/-- The struct `PacketInfo`. -/
structure PacketInfo where
  source_ip : String
  dest_ip : String
  source_port : Nat
  dest_port : Nat
  protocol : String
  size : Nat
  payload : String
  timestamp : Nat
  deriving DecidableEq, Repr

/-- Whatever the stack holds where `PacketInfo info;` places its scalar members:
the struct has no constructor, so only the three strings are initialised. -/
structure Indeterminate where
  source_port : Nat
  dest_port : Nat
  size : Nat
  timestamp : Nat
  deriving DecidableEq, Repr

/-- The declaration `PacketInfo info;`. -/
def PacketInfo.declare (u : Indeterminate) : PacketInfo :=
  { source_ip := "", dest_ip := "",
    source_port := u.source_port % 2 ^ 16, dest_port := u.dest_port % 2 ^ 16,
    protocol := "", size := u.size % 2 ^ 16, payload := "",
    timestamp := u.timestamp % 2 ^ 64 }

/-- What one call of `parsePacket` takes from its surroundings: the
uninitialised scalars of its own `info` and of the `info` of `parseTCP` or
`parseUDP`, and the two readings of the system clock (milliseconds). -/
structure ParseEnv where
  info : Indeterminate
  inner : Indeterminate
  now : Nat
  now_inner : Nat

/-! ## packet_parser.cpp -/

/-- `PacketParser::ntohs_custom`: `ntohs` on the little-endian host. -/
def ntohs_custom (value : Nat) : Nat :=
  (value % 256) * 256 + value / 256 % 256

/-- `PacketParser::ipToString`: `inet_ntop(AF_INET, &ip, ...)` prints the four
bytes of `ip` in memory order as dotted decimal. -/
def ipToString (ip : Nat) : String :=
  toString (ip % 256) ++ "." ++ toString (ip / 256 % 256) ++ "."
    ++ toString (ip / 65536 % 256) ++ "." ++ toString (ip / 16777216 % 256)

/-- One lowercase hexadecimal digit. -/
def hexDigit (d : Nat) : Char :=
  if d < 10 then Char.ofNat (48 + d) else Char.ofNat (87 + d)

/-- Output of `ss << std::hex << std::setfill('0') << std::setw(2) << (int)b`
for a byte `b`. -/
def hex2 (b : Nat) : String :=
  String.mk [hexDigit (b / 16), hexDigit (b % 16)]

/-- `PacketParser::bytesToHex(data, length, max_bytes)`, where `data` is the
offset of the first byte. -/
def bytesToHex (mem : Nat → Nat) (data : Nat) (length : Int) (max_bytes : Int) :
    Traced String :=
  let bytes_to_show : Int := min length max_bytes
  let body := (List.range bytes_to_show.toNat).foldl
    (fun ss i =>
      ss ++ hex2 (byteAt mem (data + i))
        ++ (if (i : Int) < bytes_to_show - 1 then " " else ""))
    ""
  { val := if length > max_bytes then body ++ "..." else body
    reads := (List.range bytes_to_show.toNat).map (fun i => data + i) }

/-- Default value of the parameter `max_bytes` of `bytesToHex`. -/
def DEFAULT_MAX_BYTES : Int := 64

/-- `PacketParser::parseTCP(ip_header, packet, length)`; `ip_header` and
`packet` are offsets. -/
def parseTCP (u : Indeterminate) (now : Nat) (mem : Nat → Nat)
    (ip_header packet : Nat) (length : Int) : Traced PacketInfo :=
  let info : PacketInfo :=
    { PacketInfo.declare u with
      source_ip := ipToString (load32 mem (ip_header + 12))
      dest_ip := ipToString (load32 mem (ip_header + 16))
      size := ntohs_custom (load16 mem (ip_header + 2))
      protocol := "TCP"
      timestamp := now % 2 ^ 64 }
  let r0 := span32 (ip_header + 12) ++ span32 (ip_header + 16) ++ span16 (ip_header + 2)
  if toSizeT length < sizeof_TCPHeader then
    { val := info, reads := r0 }
  else
    let info : PacketInfo :=
      { info with
        source_port := ntohs_custom (load16 mem packet)
        dest_port := ntohs_custom (load16 mem (packet + 2)) }
    let r1 := r0 ++ span16 packet ++ span16 (packet + 2) ++ [packet + 12]
    let tcp_header_length : Nat := ((byteAt mem (packet + 12) >>> 4) * 4) % 256
    if length > (tcp_header_length : Int) then
      let payload := packet + tcp_header_length
      let payload_length : Int := length - tcp_header_length
      let hex := bytesToHex mem payload payload_length DEFAULT_MAX_BYTES
      { val := { info with payload := hex.val }, reads := r1 ++ hex.reads }
    else
      { val := info, reads := r1 }

/-- `PacketParser::parseUDP(ip_header, packet, length)`. -/
def parseUDP (u : Indeterminate) (now : Nat) (mem : Nat → Nat)
    (ip_header packet : Nat) (length : Int) : Traced PacketInfo :=
  let info : PacketInfo :=
    { PacketInfo.declare u with
      source_ip := ipToString (load32 mem (ip_header + 12))
      dest_ip := ipToString (load32 mem (ip_header + 16))
      size := ntohs_custom (load16 mem (ip_header + 2))
      protocol := "UDP"
      timestamp := now % 2 ^ 64 }
  let r0 := span32 (ip_header + 12) ++ span32 (ip_header + 16) ++ span16 (ip_header + 2)
  if toSizeT length < sizeof_UDPHeader then
    { val := info, reads := r0 }
  else
    let info : PacketInfo :=
      { info with
        source_port := ntohs_custom (load16 mem packet)
        dest_port := ntohs_custom (load16 mem (packet + 2)) }
    let r1 := r0 ++ span16 packet ++ span16 (packet + 2)
    if toSizeT length > sizeof_UDPHeader then
      let payload := packet + sizeof_UDPHeader
      let payload_length : Int :=
        toInt32 ((toSizeT length + 2 ^ 64 - sizeof_UDPHeader) % 2 ^ 64)
      let hex := bytesToHex mem payload payload_length DEFAULT_MAX_BYTES
      { val := { info with payload := hex.val }, reads := r1 ++ hex.reads }
    else
      { val := info, reads := r1 }

/-- `PacketParser::parsePacket(packet, length)`; `packet` is offset 0 of `mem`. -/
def parsePacket (env : ParseEnv) (mem : Nat → Nat) (length : Int) : Traced PacketInfo :=
  let info : PacketInfo := PacketInfo.declare env.info
  if toSizeT length < sizeof_IPHeader then
    { val := info, reads := [] }
  else
    let ip_header : Nat := 0
    let version_ihl := byteAt mem ip_header
    if version_ihl >>> 4 ≠ 4 then
      { val := info, reads := [ip_header] }
    else
      let info : PacketInfo :=
        { info with
          source_ip := ipToString (load32 mem (ip_header + 12))
          dest_ip := ipToString (load32 mem (ip_header + 16))
          size := ntohs_custom (load16 mem (ip_header + 2))
          timestamp := env.now % 2 ^ 64 }
      let r0 := [ip_header] ++ span32 (ip_header + 12) ++ span32 (ip_header + 16)
        ++ span16 (ip_header + 2) ++ [ip_header]
      let ip_header_length : Nat := ((version_ihl &&& 0x0F) * 4) % 256
      let payload := ip_header_length
      let payload_length : Int := length - ip_header_length
      let protocol := byteAt mem (ip_header + 9)
      if protocol = 6 then
        let r := parseTCP env.inner env.now_inner mem ip_header payload payload_length
        { val := r.val, reads := r0 ++ [ip_header + 9] ++ r.reads }
      else if protocol = 17 then
        let r := parseUDP env.inner env.now_inner mem ip_header payload payload_length
        { val := r.val, reads := r0 ++ [ip_header + 9] ++ r.reads }
      else
        { val := { info with protocol := "OTHER", source_port := 0, dest_port := 0 }
          reads := r0 ++ [ip_header + 9] }

/-! ## session_manager.h -/

/-- The struct `SessionKey`; `operator==` is structural over the five fields. -/
structure SessionKey where
  source_ip : String
  source_port : Nat
  dest_ip : String
  dest_port : Nat
  protocol : String
  deriving DecidableEq, Repr

/-- The struct `SessionInfo`. -/
structure SessionInfo where
  socket_fd : Int
  bytes_sent : Nat
  bytes_received : Nat
  packets_sent : Nat
  packets_received : Nat
  last_activity : Nat
  is_active : Bool
  deriving DecidableEq, Repr

/-- The constructor `SessionInfo()`. -/
def SessionInfo.new : SessionInfo :=
  { socket_fd := -1, bytes_sent := 0, bytes_received := 0, packets_sent := 0,
    packets_received := 0, last_activity := 0, is_active := false }

/-- The struct `ProtocolStats`. -/
structure ProtocolStats where
  protocol : String
  packet_count : Nat
  total_bytes : Nat
  deriving DecidableEq, Repr

/-- The constructor `ProtocolStats(proto)`. -/
def ProtocolStats.new (proto : String) : ProtocolStats :=
  { protocol := proto, packet_count := 0, total_bytes := 0 }

/-- The constant `SessionManager::SESSION_TIMEOUT_MS`. -/
def SESSION_TIMEOUT_MS : Nat := 300000

/-- Implicit conversion of an `int` to `uint64_t`. -/
def toUInt64 (x : Int) : Nat := toSizeT x

/-! ### `std::unordered_map` as an association list

Keys are unique in every table the operations below build.  New entries are
appended, so the list order is the order of first insertion; the order in
which the container is traversed is a separate matter (see
`getProtocolStats`). -/

section Table

variable {κ ν : Type} [DecidableEq κ]

/-- `m.find(key)`: the mapped value, or `none` for `m.end()`. -/
def mapFind (key : κ) : List (κ × ν) → Option ν
  | [] => none
  | (k, v) :: rest => if k = key then some v else mapFind key rest

/-- Assignment to `it->second` for the iterator that `m.find(key)` returned. -/
def mapAssign (key : κ) (v : ν) : List (κ × ν) → List (κ × ν)
  | [] => []
  | (k, w) :: rest => if k = key then (k, v) :: rest else (k, w) :: mapAssign key v rest

/-- `m[key] = v`. -/
def mapPut (key : κ) (v : ν) (m : List (κ × ν)) : List (κ × ν) :=
  match mapFind key m with
  | some _ => mapAssign key v m
  | none => m ++ [(key, v)]

/-- `m[key] = f(m[key])`, as in `m[key].n++`: `operator[]` first inserts the
default-constructed value `dflt` when the key is absent. -/
def mapModify (key : κ) (dflt : ν) (f : ν → ν) (m : List (κ × ν)) : List (κ × ν) :=
  match mapFind key m with
  | some v => mapAssign key (f v) m
  | none => m ++ [(key, f dflt)]

/-- `m.erase(it)` for the iterator that `m.find(key)` returned. -/
def mapErase (key : κ) (m : List (κ × ν)) : List (κ × ν) :=
  m.filter (fun e => decide (e.1 ≠ key))

end Table

/-- The process state the flow table and the forwarder act on: the two maps of
the `SessionManager` singleton, and the record of the system calls that create
and release resources. -/
structure System where
  /-- Member `sessions_`. -/
  sessions_ : List (SessionKey × SessionInfo)
  /-- Member `protocol_stats_`. -/
  protocol_stats_ : List (String × ProtocolStats)
  /-- Descriptors passed to `close`, in call order. -/
  closed : List Int
  /-- Descriptors returned by successful `socket` calls, in call order. -/
  opened : List Int
  /-- Reader threads started by `forwardPacket`: descriptor and identity. -/
  readers : List (Int × SessionKey)
  /-- Descriptors passed to `send`, in call order. -/
  sent_on : List Int
  deriving DecidableEq, Repr

/-- The state at process start. -/
def System.init : System :=
  { sessions_ := [], protocol_stats_ := [], closed := [], opened := [], readers := [],
    sent_on := [] }

/-! ## session_manager.cpp -/

/-- `SessionManager::getSession(key)` at clock reading `now`: the session the
returned pointer designates, and the state afterwards. -/
def getSession (s : System) (key : SessionKey) (now : Nat) : SessionInfo × System :=
  match mapFind key s.sessions_ with
  | some session => (session, s)
  | none =>
    let new_session : SessionInfo :=
      { SessionInfo.new with last_activity := now % 2 ^ 64, is_active := true }
    (new_session, { s with sessions_ := mapPut key new_session s.sessions_ })

/-- `SessionManager::updateSession(key, bytes, is_outgoing)` at clock reading
`now`. -/
def updateSession (s : System) (key : SessionKey) (bytes : Int) (is_outgoing : Bool)
    (now : Nat) : System :=
  match mapFind key s.sessions_ with
  | none => s
  | some session =>
    let session : SessionInfo :=
      if is_outgoing then
        { session with
          bytes_sent := (session.bytes_sent + toUInt64 bytes) % 2 ^ 64
          packets_sent := (session.packets_sent + 1) % 2 ^ 64 }
      else
        { session with
          bytes_received := (session.bytes_received + toUInt64 bytes) % 2 ^ 64
          packets_received := (session.packets_received + 1) % 2 ^ 64 }
    let session : SessionInfo := { session with last_activity := now % 2 ^ 64 }
    { s with sessions_ := mapAssign key session s.sessions_ }

/-- `SessionManager::closeSession(key)`. -/
def closeSession (s : System) (key : SessionKey) : System :=
  match mapFind key s.sessions_ with
  | none => s
  | some session =>
    let closed := if session.socket_fd ≠ -1 then s.closed ++ [session.socket_fd] else s.closed
    { s with sessions_ := mapErase key s.sessions_, closed := closed }

/-- The test `current_time - it->second.last_activity > SESSION_TIMEOUT_MS`,
computed in `uint64_t`. -/
def idleTooLong (current_time : Nat) (session : SessionInfo) : Bool :=
  decide ((((current_time : Int) - (session.last_activity : Int)) % 2 ^ 64).toNat
    > SESSION_TIMEOUT_MS)

/-- The loop of `cleanupOldSessions` over the entries still to visit: the
entries kept and the descriptors closed, in visiting order. -/
def sweepLoop (current_time : Nat) :
    List (SessionKey × SessionInfo) → List (SessionKey × SessionInfo) × List Int
  | [] => ([], [])
  | (k, session) :: rest =>
    let r := sweepLoop current_time rest
    if idleTooLong current_time session then
      (r.1, (if session.socket_fd ≠ -1 then [session.socket_fd] else []) ++ r.2)
    else
      ((k, session) :: r.1, r.2)

/-- `SessionManager::cleanupOldSessions()` at clock reading `now`. -/
def cleanupOldSessions (s : System) (now : Nat) : System :=
  let current_time := now % 2 ^ 64
  let r := sweepLoop current_time s.sessions_
  { s with sessions_ := r.1, closed := s.closed ++ r.2 }

/-- `SessionManager::updateProtocolStats(protocol, bytes)`. -/
def updateProtocolStats (s : System) (protocol : String) (bytes : Int) : System :=
  let stats :=
    if (mapFind protocol s.protocol_stats_).isNone then
      mapPut protocol (ProtocolStats.new protocol) s.protocol_stats_
    else s.protocol_stats_
  let stats := mapModify protocol (ProtocolStats.new "")
    (fun p => { p with packet_count := (p.packet_count + 1) % 2 ^ 64 }) stats
  let stats := mapModify protocol (ProtocolStats.new "")
    (fun p => { p with total_bytes := (p.total_bytes + toUInt64 bytes) % 2 ^ 64 }) stats
  { s with protocol_stats_ := stats }

/-- Insertion step of `stdSort`: `x` moves left past every element that `comp`
orders after it. -/
def sortInsert {α : Type} (comp : α → α → Bool) (x : α) : List α → List α
  | [] => [x]
  | y :: ys => if comp x y then x :: y :: ys else y :: sortInsert comp x ys

/-- `std::sort(first, last, comp)` as the insertion sort the standard library
runs on short ranges.  The standard leaves the order of equivalent elements
unspecified. -/
def stdSort {α : Type} (comp : α → α → Bool) (l : List α) : List α :=
  l.foldl (fun sorted x => sortInsert comp x sorted) []

/-- The comparator of `getProtocolStats`. -/
def byPacketCountDesc (a b : ProtocolStats) : Bool :=
  decide (a.packet_count > b.packet_count)

/-- `SessionManager::getProtocolStats()`.  The order in which the range-`for`
visits a `std::unordered_map` is unspecified; `traversal` is that order, a
rearrangement of the stored entries. -/
def getProtocolStats (s : System)
    (traversal : List (String × ProtocolStats) → List (String × ProtocolStats)) :
    List ProtocolStats :=
  let stats := (traversal s.protocol_stats_).map (fun pair => pair.2)
  stdSort byPacketCountDesc stats

/-- `SessionManager::resetStats()`. -/
def resetStats (s : System) : System :=
  { s with protocol_stats_ := [], sessions_ := [] }

/-! ## socket_forwarder.cpp -/

/-- Results of the system calls one `forwardPacket` call may make, and the
clock readings of `getSession` and `updateSession`. -/
structure ForwardEnv where
  now_get : Nat
  /-- Result of `socket`: a descriptor, or -1. -/
  socket_result : Int
  /-- Result of `inet_pton`. -/
  inet_pton_result : Int
  /-- Result of `connect`. -/
  connect_result : Int
  /-- Whether `errno` is `EINPROGRESS` after `connect`. -/
  errno_einprogress : Bool
  /-- Result of `send`. -/
  sent : Int
  now_update : Nat

/-- `SocketForwarder::createSocket(protocol)`: the descriptor or -1, and the
state afterwards.  The `fcntl` calls that set `O_NONBLOCK` leave the modelled
state alone. -/
def createSocket (env : ForwardEnv) (s : System) (protocol : String) : Int × System :=
  if protocol = "TCP" ∨ protocol = "UDP" then
    let socket_fd := env.socket_result
    if socket_fd = -1 then (-1, s)
    else (socket_fd, { s with opened := s.opened ++ [socket_fd] })
  else
    (-1, s)

/-- `SocketForwarder::connectToDestination(socket_fd, dest_ip, dest_port)`. -/
def connectToDestination (env : ForwardEnv) : Bool :=
  if env.inet_pton_result ≤ 0 then false
  else if env.connect_result = -1 ∧ env.errno_einprogress = false then false
  else true

/-- Assignment `session->socket_fd = fd` through the pointer that
`getSession(key)` returned. -/
def setSocketFd (s : System) (key : SessionKey) (fd : Int) : System :=
  match mapFind key s.sessions_ with
  | some session =>
    { s with sessions_ := mapAssign key { session with socket_fd := fd } s.sessions_ }
  | none => s

/-- The tail of `forwardPacket`: `send` on `socket_fd` and the accounting. -/
def sendAndRecord (env : ForwardEnv) (s : System) (key : SessionKey) (socket_fd : Int) :
    Bool × System :=
  let s := { s with sent_on := s.sent_on ++ [socket_fd] }
  if env.sent > 0 then (true, updateSession s key env.sent true env.now_update)
  else (false, s)

/-- `SocketForwarder::forwardPacket(key, packet, length)`: the result and the
state afterwards.  The detached reader thread is recorded, not run. -/
def forwardPacket (env : ForwardEnv) (s : System) (key : SessionKey) : Bool × System :=
  let (session, s) := getSession s key env.now_get
  if session.socket_fd = -1 then
    let (fd, s) := createSocket env s key.protocol
    let s := setSocketFd s key fd
    if fd = -1 then (false, s)
    else if ¬ connectToDestination env then
      (false, { setSocketFd s key (-1) with closed := s.closed ++ [fd] })
    else
      let s := { s with readers := s.readers ++ [(fd, key)] }
      sendAndRecord env s key fd
  else
    sendAndRecord env s key session.socket_fd

/-! ## Vocabulary of the statements -/

/-- Dotted-decimal text of four bytes. -/
def dotted (a b c d : Nat) : String :=
  toString a ++ "." ++ toString b ++ "." ++ toString c ++ "." ++ toString d

/-- A run of `updateSession` calls for one identity, in the order given: each
transfer is (size, `is_outgoing`, clock reading). -/
def applyTransfers (key : SessionKey) (s : System) (ops : List (Nat × Bool × Nat)) : System :=
  ops.foldl (fun st op => updateSession st key (op.1 : Int) op.2.1 op.2.2) s

/-- Sizes of the outbound transfers of a run, in order. -/
def sentSizes (ops : List (Nat × Bool × Nat)) : List Nat :=
  (ops.filter (fun op => op.2.1)).map (fun op => op.1)

/-- Sizes of the inbound transfers of a run, in order. -/
def receivedSizes (ops : List (Nat × Bool × Nat)) : List Nat :=
  (ops.filter (fun op => !op.2.1)).map (fun op => op.1)

/-- A run of `updateProtocolStats` calls, one per observation (protocol name,
byte count), in the order given. -/
def observe (s : System) (obs : List (String × Int)) : System :=
  obs.foldl (fun st o => updateProtocolStats st o.1 o.2) s

/-- Descending by `packet_count`. -/
def DescByCount (a b : ProtocolStats) : Prop := b.packet_count ≤ a.packet_count

/-- A socket is stored only on a TCP or UDP identity.  It holds at process
start and every operation of the flow table and the forwarder keeps it. -/
def SocketsSupported (s : System) : Prop :=
  ∀ e ∈ s.sessions_, e.2.socket_fd ≠ -1 → e.1.protocol = "TCP" ∨ e.1.protocol = "UDP"

instance (s : System) : Decidable (SocketsSupported s) := by
  unfold SocketsSupported; infer_instance

/-! ### Worked inputs -/

/-- A buffer of bytes as an address space: the listed bytes, then zeroes. -/
def bufferOf (bytes : List Nat) : Nat → Nat := fun off => bytes.getD off 0

/-- A 20-byte capture whose first byte is 0x4F (version 4, header length
15 × 4 = 60) and whose protocol byte is 6. -/
def optionsPastEnd : Nat → Nat :=
  fun off => if off = 0 then 0x4F else if off = 9 then 6 else 0

/-- A 44-byte IPv4/TCP packet: 10.0.0.1:8080 → 192.168.1.20:80, four payload
bytes. -/
def tcpPacket : List Nat :=
  [0x45, 0, 0, 44, 0, 0, 0, 0, 64, 6, 0, 0, 10, 0, 0, 1, 192, 168, 1, 20,
   0x1f, 0x90, 0, 80, 0, 0, 0, 0, 0, 0, 0, 0, 0x50, 0, 0, 0, 0, 0, 0, 0,
   0xde, 0xad, 0xbe, 0xef]

/-- A 28-byte IPv4 packet with protocol number 1 (ICMP). -/
def icmpPacket : List Nat :=
  [0x45, 0, 0, 28, 0, 0, 0, 0, 64, 1, 0, 0, 10, 0, 0, 1, 192, 168, 1, 20,
   8, 0, 0, 0, 0, 0, 0, 0]

/-- Surroundings of a `parsePacket` call in which every indeterminate scalar
and both clock readings are 0. -/
def zeroEnv : ParseEnv :=
  { info := ⟨0, 0, 0, 0⟩, inner := ⟨0, 0, 0, 0⟩, now := 0, now_inner := 0 }

/-- Identity of a TCP flow. -/
def tcpKey : SessionKey :=
  { source_ip := "10.0.0.2", source_port := 40000, dest_ip := "93.184.216.34",
    dest_port := 443, protocol := "TCP" }

/-- Identity the driver builds for a packet classified "OTHER". -/
def icmpKey : SessionKey :=
  { source_ip := "10.0.0.2", source_port := 0, dest_ip := "93.184.216.34",
    dest_port := 0, protocol := "OTHER" }

/-- A table holding one connected flow on descriptor `fd` whose last activity
was stamped at clock reading `last_activity`. -/
def oneFlow (fd : Int) (last_activity : Nat) : System :=
  { System.init with
    sessions_ := [(tcpKey, { SessionInfo.new with
      socket_fd := fd, last_activity := last_activity, is_active := true })]
    opened := [fd] }

/-- System-call results under which a first `forwardPacket` would succeed:
`socket` returns 7, `connect` is in progress, `send` takes 60 bytes. -/
def goodEnv : ForwardEnv :=
  { now_get := 1000, socket_result := 7, inet_pton_result := 1, connect_result := -1,
    errno_einprogress := true, sent := 60, now_update := 1001 }

/-! ### Vocabulary of the later statements -/

/-- Two-digit lowercase hexadecimal text of a byte: its base-16 digits, with a
leading zero when there is only one. -/
def twoHexDigits (b : Nat) : String :=
  let ds := Nat.toDigits 16 b
  String.mk (if ds.length < 2 then '0' :: ds else ds)

/-- The preview the specification describes for a byte sequence: the two-digit
hex of the first 64 bytes at most, separated by single spaces, then the marker
"..." when the sequence is longer than 64 bytes. -/
def hexPreview (bytes : List Nat) : String :=
  String.intercalate " " ((bytes.take 64).map (fun b => twoHexDigits (b % 256)))
    ++ (if bytes.length > 64 then "..." else "")

/-- A 30-byte IPv4 capture with protocol byte 6 and header length 20: only ten
bytes follow the IP header. -/
def shortTcpPacket : List Nat :=
  [0x45, 0, 0, 30, 0, 0, 0, 0, 64, 6, 0, 0, 10, 0, 0, 1, 192, 168, 1, 20,
   0x1f, 0x90, 0, 80, 0, 0, 0, 0, 0, 0]

/-- Surroundings of a `parsePacket` call in which the stack slots of the port
members of the `info` of `parseTCP` still hold 443 and 8080. -/
def staleEnv : ParseEnv :=
  { info := ⟨0, 0, 0, 0⟩, inner := ⟨443, 8080, 0, 0⟩, now := 0, now_inner := 0 }

/-! ### Runs of calls

The calls that the driver loop, the reader threads and the entry points of the
library make on the flow table and the forwarder, one at a time. -/

/-- One call on the flow table or the forwarder, with the clock reading and the
system-call results it meets. -/
inductive Call where
  | get (key : SessionKey) (now : Nat)
  | update (key : SessionKey) (bytes : Int) (is_outgoing : Bool) (now : Nat)
  | close (key : SessionKey)
  | sweep (now : Nat)
  | observeProtocol (protocol : String) (bytes : Int)
  | reset
  | forward (env : ForwardEnv) (key : SessionKey)

/-- The state after one call. -/
def runCall (s : System) : Call → System
  | .get key now => (getSession s key now).2
  | .update key bytes is_outgoing now => updateSession s key bytes is_outgoing now
  | .close key => closeSession s key
  | .sweep now => cleanupOldSessions s now
  | .observeProtocol protocol bytes => updateProtocolStats s protocol bytes
  | .reset => resetStats s
  | .forward env key => (forwardPacket env s key).2

/-- The state after a run of calls, in the order given. -/
def runCalls (s : System) (calls : List Call) : System := calls.foldl runCall s

/-- Whether a call is `closeSession(key)`, `cleanupOldSessions()` or
`resetStats()`. -/
def releasesFlow (key : SessionKey) : Call → Bool
  | .close k => decide (k = key)
  | .sweep _ => true
  | .reset => true
  | _ => false

/-- The reader threads started for `key`, in starting order. -/
def readersOf (key : SessionKey) (s : System) : List (Int × SessionKey) :=
  s.readers.filter (fun r => decide (r.2 = key))

/-- Identity of a UDP flow. -/
def udpKey : SessionKey :=
  { source_ip := "10.0.0.2", source_port := 40001, dest_ip := "8.8.8.8",
    dest_port := 53, protocol := "UDP" }

/-- Calls between two forwards of `tcpKey`: the reader thread accounts 1460
inbound bytes, the driver counts a packet, forwards a packet of an unsupported
identity, forwards a packet of a UDP flow for which `socket` returns 8, closes
that flow, looks the unsupported identity up, and forwards a further packet of
`tcpKey`. -/
def betweenCalls : List Call :=
  [.update tcpKey 1460 false 1002, .observeProtocol "TCP" 60, .forward goodEnv icmpKey,
   .forward { goodEnv with socket_result := 8 } udpKey, .close udpKey, .get icmpKey 1003,
   .forward goodEnv tcpKey]

/-! # Properties

## Arithmetic of the header fields -/

/-- The mask `& 0x0F` keeps the low nibble. -/
theorem land15 (x : Nat) : x &&& 0x0F = x % 16 :=
  Nat.and_pow_two_sub_one_eq_mod x 4

/-- The shift `>> 4` keeps the high nibble of a byte. -/
theorem shr4 (x : Nat) : x >>> 4 = x / 16 := by
  simp [Nat.shiftRight_eq_div_pow]

theorem byteAt_lt (mem : Nat → Nat) (i : Nat) : byteAt mem i < 256 := by
  unfold byteAt; omega

theorem toSizeT_natCast (n : Nat) : toSizeT (n : Int) = n := by
  unfold toSizeT; simp

theorem toSizeT_nonneg (x : Int) (h : 0 ≤ x) : toSizeT x = x.toNat := by
  unfold toSizeT; simp; omega

theorem toUInt64_natCast (n : Nat) : toUInt64 (n : Int) = n := by
  unfold toUInt64 toSizeT; simp

/-- Loading a 16-bit field and applying `ntohs` yields the big-endian value of
the two bytes. -/
theorem ntohs_load16 (mem : Nat → Nat) (o : Nat) :
    ntohs_custom (load16 mem o) = 256 * byteAt mem o + byteAt mem (o + 1) := by
  have h0 := byteAt_lt mem o
  have h1 := byteAt_lt mem (o + 1)
  unfold ntohs_custom load16
  omega

/-- Loading a 32-bit address and printing it yields the four bytes in wire
order. -/
theorem ipToString_load32 (mem : Nat → Nat) (o : Nat) :
    ipToString (load32 mem o)
      = dotted (byteAt mem o) (byteAt mem (o + 1)) (byteAt mem (o + 2)) (byteAt mem (o + 3)) := by
  have h0 := byteAt_lt mem o
  have h1 := byteAt_lt mem (o + 1)
  have h2 := byteAt_lt mem (o + 2)
  have h3 := byteAt_lt mem (o + 3)
  have e0 : load32 mem o % 256 = byteAt mem o := by unfold load32; omega
  have e1 : load32 mem o / 256 % 256 = byteAt mem (o + 1) := by unfold load32; omega
  have e2 : load32 mem o / 65536 % 256 = byteAt mem (o + 2) := by unfold load32; omega
  have e3 : load32 mem o / 16777216 % 256 = byteAt mem (o + 3) := by unfold load32; omega
  unfold ipToString dotted
  rw [e0, e1, e2, e3]

/-- The header length the decoder computes is four times the low nibble. -/
theorem ip_header_length_eq (mem : Nat → Nat) :
    (byteAt mem 0 &&& 0x0F) * 4 % 256 = 4 * (byteAt mem 0 &&& 0x0F) := by
  have hb := byteAt_lt mem 0
  rw [land15]
  omega

/-! ## The association list -/

section Table

variable {κ ν : Type} [DecidableEq κ]

theorem mapFind_mapAssign_self (key : κ) (v : ν) (m : List (κ × ν)) (w : ν)
    (h : mapFind key m = some w) : mapFind key (mapAssign key v m) = some v := by
  induction m with
  | nil => simp [mapFind] at h
  | cons e rest ih =>
    obtain ⟨k, x⟩ := e
    by_cases hk : k = key
    · simp [mapFind, mapAssign, hk]
    · simp [mapFind, hk] at h
      simp [mapFind, mapAssign, hk, ih h]

theorem mapFind_append_self (key : κ) (v : ν) (m : List (κ × ν))
    (h : mapFind key m = none) : mapFind key (m ++ [(key, v)]) = some v := by
  induction m with
  | nil => simp [mapFind]
  | cons e rest ih =>
    obtain ⟨k, x⟩ := e
    by_cases hk : k = key
    · simp [mapFind, hk] at h
    · simp [mapFind, hk] at h
      simp [mapFind, hk, ih h]

theorem mapAssign_same (key : κ) (v : ν) (m : List (κ × ν))
    (h : mapFind key m = some v) : mapAssign key v m = m := by
  induction m with
  | nil => rfl
  | cons e rest ih =>
    obtain ⟨k, x⟩ := e
    by_cases hk : k = key
    · simp [mapFind, hk] at h
      simp [mapAssign, hk, h]
    · simp [mapFind, hk] at h
      simp [mapAssign, hk, ih h]

theorem mapFind_mem (key : κ) (v : ν) (m : List (κ × ν)) (h : mapFind key m = some v) :
    (key, v) ∈ m := by
  induction m with
  | nil => simp [mapFind] at h
  | cons e rest ih =>
    obtain ⟨k, x⟩ := e
    by_cases hk : k = key
    · simp [mapFind, hk] at h
      simp [hk, h]
    · simp [mapFind, hk] at h
      exact List.mem_cons_of_mem _ (ih h)

theorem mem_mapAssign (key : κ) (v : ν) (m : List (κ × ν)) (e : κ × ν)
    (h : e ∈ mapAssign key v m) : e ∈ m ∨ e = (key, v) := by
  induction m with
  | nil => simp [mapAssign] at h
  | cons e0 rest ih =>
    obtain ⟨k, x⟩ := e0
    by_cases hk : k = key
    · simp only [mapAssign, hk, if_true, List.mem_cons] at h
      rcases h with h | h
      · exact Or.inr h
      · exact Or.inl (List.mem_cons_of_mem _ h)
    · simp only [mapAssign, hk, if_false, List.mem_cons] at h
      rcases h with h | h
      · exact Or.inl (by rw [h]; exact List.mem_cons_self _ _)
      · rcases ih h with h | h
        · exact Or.inl (List.mem_cons_of_mem _ h)
        · exact Or.inr h

end Table

/-! ## Header decoder -/

theorem bytesToHex_reads (mem : Nat → Nat) (data : Nat) (length max_bytes : Int) (off : Nat)
    (h : off ∈ (bytesToHex mem data length max_bytes).reads) :
    data ≤ off ∧ ((off : Int) - data < length) := by
  simp only [bytesToHex, List.mem_map, List.mem_range] at h
  obtain ⟨i, hi, rfl⟩ := h
  have : (i : Int) < min length max_bytes := by omega
  constructor
  · omega
  · have := min_le_left length max_bytes
    omega

theorem parseTCP_reads_in_bounds (u : Indeterminate) (now : Nat) (mem : Nat → Nat)
    (packet : Nat) (length : Int) (n : Nat) (hlen : 0 ≤ length) (hn : 20 ≤ n)
    (hfit : (packet : Int) + length ≤ n) :
    ∀ off ∈ (parseTCP u now mem 0 packet length).reads, off < n := by
  intro off hoff
  unfold parseTCP at hoff
  simp only [toSizeT_nonneg length hlen, sizeof_TCPHeader] at hoff
  split at hoff
  · simp [span16, span32] at hoff
    omega
  · rename_i h20
    split at hoff
    · simp only [span16, span32, List.mem_append, List.mem_cons, List.mem_singleton,
        List.not_mem_nil, or_false] at hoff
      rcases hoff with hoff | hoff
      · omega
      · have := bytesToHex_reads _ _ _ _ _ hoff
        omega
    · simp [span16, span32] at hoff
      omega

theorem parseUDP_reads_in_bounds (u : Indeterminate) (now : Nat) (mem : Nat → Nat)
    (packet : Nat) (length : Int) (n : Nat) (hlen : 0 ≤ length) (hn : 20 ≤ n)
    (hint : length < 2 ^ 31) (hfit : (packet : Int) + length ≤ n) :
    ∀ off ∈ (parseUDP u now mem 0 packet length).reads, off < n := by
  intro off hoff
  unfold parseUDP at hoff
  simp only [toSizeT_nonneg length hlen, sizeof_UDPHeader] at hoff
  split at hoff
  · simp [span16, span32] at hoff
    omega
  · rename_i h8
    split at hoff
    · rename_i h9
      simp only [span16, span32, List.mem_append, List.mem_cons, List.mem_singleton,
        List.not_mem_nil, or_false] at hoff
      rcases hoff with hoff | hoff
      · omega
      · have hb := bytesToHex_reads _ _ _ _ _ hoff
        have hpl : toInt32 ((length.toNat + 2 ^ 64 - 8) % 2 ^ 64) = length - 8 := by
          unfold toInt32
          have e : (length.toNat + 2 ^ 64 - 8) % 2 ^ 64 = length.toNat - 8 := by omega
          rw [e]
          have e2 : (length.toNat - 8) % 2 ^ 32 = length.toNat - 8 := by omega
          rw [e2]
          split <;> omega
        rw [hpl] at hb
        omega
    · simp [span16, span32] at hoff
      omega

/-- C1, evaluated at the failing input: on the 20-byte capture `optionsPastEnd`
(first byte 0x4F, protocol byte 6) `parsePacket` passes a length of 20 - 60 to
`parseTCP`, whose test `length < sizeof(TCPHeader)` compares it as an unsigned
value and lets it through; the TCP header is then read at offsets 60 to 63 and
72, all past the 20 bytes of the buffer. -/
theorem parsePacket_reads_past_length :
    (parsePacket zeroEnv optionsPastEnd 20).reads
        = [0, 12, 13, 14, 15, 16, 17, 18, 19, 2, 3, 0, 9,
           12, 13, 14, 15, 16, 17, 18, 19, 2, 3, 60, 61, 62, 63, 72]
      ∧ ¬ (∀ off ∈ (parsePacket zeroEnv optionsPastEnd 20).reads, off < 20) := by
  decide

/-- Reads stay inside the buffer whenever the declared header length fits in
it: for every buffer of `n` bytes (`n` an `int` value) with
`4 * (byte0 & 0x0F) ≤ n`, every offset `parsePacket` dereferences is below
`n`. -/
theorem parsePacket_reads_in_bounds (env : ParseEnv) (mem : Nat → Nat) (n : Nat)
    (hn : n < 2 ^ 31) (hfit : 4 * (byteAt mem 0 &&& 0x0F) ≤ n) :
    ∀ off ∈ (parsePacket env mem n).reads, off < n := by
  have ho := ip_header_length_eq mem
  intro off hoff
  unfold parsePacket at hoff
  simp only [toSizeT_natCast, sizeof_IPHeader, ho] at hoff
  split at hoff
  · simp at hoff
  · rename_i h20
    split at hoff
    · simp at hoff; omega
    · split at hoff
      · simp only [span16, span32, List.mem_append, List.mem_cons, List.mem_singleton,
          List.not_mem_nil, or_false] at hoff
        rcases hoff with hoff | hoff
        · omega
        · exact parseTCP_reads_in_bounds _ _ _ _ _ n (by omega) (by omega) (by omega) off hoff
      · split at hoff
        · simp only [span16, span32, List.mem_append, List.mem_cons, List.mem_singleton,
            List.not_mem_nil, or_false] at hoff
          rcases hoff with hoff | hoff
          · omega
          · exact parseUDP_reads_in_bounds _ _ _ _ _ n (by omega) (by omega) (by omega)
              (by omega) off hoff
        · simp [span16, span32] at hoff
          omega

theorem parsePacket_reads_in_bounds_witness :
    (44 : Nat) < 2 ^ 31 ∧ 4 * (byteAt (bufferOf tcpPacket) 0 &&& 0x0F) ≤ 44
      ∧ ∀ off ∈ (parsePacket zeroEnv (bufferOf tcpPacket) (44 : Nat)).reads, off < 44 :=
  ⟨by decide, by decide,
    parsePacket_reads_in_bounds zeroEnv (bufferOf tcpPacket) 44 (by decide) (by decide)⟩

/-- C2: a buffer shorter than 20 bytes, and a buffer of at least 20 bytes whose
version nibble is not 4, decode to the drop sentinel: the `PacketInfo` as
declared, whose protocol is the empty string. -/
theorem parsePacket_drop_sentinel (env : ParseEnv) (mem : Nat → Nat) (n : Nat)
    (h : n < 20 ∨ (20 ≤ n ∧ byteAt mem 0 / 16 ≠ 4)) :
    (parsePacket env mem n).val = PacketInfo.declare env.info
      ∧ (parsePacket env mem n).val.protocol = "" := by
  have key : (parsePacket env mem n).val = PacketInfo.declare env.info := by
    unfold parsePacket
    simp only [toSizeT_natCast, sizeof_IPHeader, shr4]
    rcases h with h | ⟨h1, h2⟩
    · simp [h]
    · have : ¬ n < 20 := by omega
      simp [this, h2]
  exact ⟨key, by rw [key]; rfl⟩

theorem parsePacket_drop_sentinel_witness :
    (((19 : Nat) < 20 ∨ (20 ≤ 19 ∧ byteAt (bufferOf tcpPacket) 0 / 16 ≠ 4))
        ∧ (parsePacket zeroEnv (bufferOf tcpPacket) (19 : Nat)).val.protocol = "")
      ∧ (((20 : Nat) < 20 ∨ (20 ≤ 20 ∧ byteAt (bufferOf [0x60]) 0 / 16 ≠ 4))
        ∧ (parsePacket zeroEnv (bufferOf [0x60]) (20 : Nat)).val.protocol = "") :=
  ⟨⟨Or.inl (by decide),
      (parsePacket_drop_sentinel zeroEnv (bufferOf tcpPacket) 19 (Or.inl (by decide))).2⟩,
    ⟨Or.inr (by decide),
      (parsePacket_drop_sentinel zeroEnv (bufferOf [0x60]) 20 (Or.inr (by decide))).2⟩⟩

/-- C3: for a buffer of `n ≥ 20` bytes with version nibble 4, protocol byte 6
and at least 20 bytes from the transport offset `o = 4 * (byte0 & 0x0F)` on,
`parsePacket` returns protocol "TCP", the addresses as the dotted-decimal text
of bytes 12..15 and 16..19, and the ports as the big-endian values of the byte
pairs at `o` and `o + 2`. -/
theorem parsePacket_tcp (env : ParseEnv) (mem : Nat → Nat) (n : Nat)
    (hn : 20 ≤ n) (hv : byteAt mem 0 / 16 = 4) (hp : byteAt mem 9 = 6)
    (hlen : 4 * (byteAt mem 0 &&& 0x0F) + 20 ≤ n) :
    (parsePacket env mem n).val.protocol = "TCP"
      ∧ (parsePacket env mem n).val.source_ip
          = dotted (byteAt mem 12) (byteAt mem 13) (byteAt mem 14) (byteAt mem 15)
      ∧ (parsePacket env mem n).val.dest_ip
          = dotted (byteAt mem 16) (byteAt mem 17) (byteAt mem 18) (byteAt mem 19)
      ∧ (parsePacket env mem n).val.source_port
          = 256 * byteAt mem (4 * (byteAt mem 0 &&& 0x0F))
              + byteAt mem (4 * (byteAt mem 0 &&& 0x0F) + 1)
      ∧ (parsePacket env mem n).val.dest_port
          = 256 * byteAt mem (4 * (byteAt mem 0 &&& 0x0F) + 2)
              + byteAt mem (4 * (byteAt mem 0 &&& 0x0F) + 3) := by
  have ho := ip_header_length_eq mem
  have hs : toSizeT ((n : Int) - ((4 * (byteAt mem 0 &&& 0x0F) : Nat) : Int))
      = n - 4 * (byteAt mem 0 &&& 0x0F) := by
    rw [toSizeT_nonneg _ (by omega)]; omega
  have h1 : ¬ n < 20 := by omega
  have h2 : ¬ (n - 4 * (byteAt mem 0 &&& 0x0F) < 20) := by omega
  unfold parsePacket
  simp only [toSizeT_natCast, sizeof_IPHeader, shr4, hv, hp, ho, h1]
  simp only [parseTCP, hs, sizeof_TCPHeader, h2]
  simp only [ite_false, ne_eq, not_true_eq_false, if_true, Nat.zero_add]
  refine ⟨?_, ?_, ?_, ?_, ?_⟩
  · split <;> rfl
  · split <;> simp [ipToString_load32]
  · split <;> simp [ipToString_load32]
  · split <;> simp [ntohs_load16]
  · split <;> simp [ntohs_load16, Nat.add_assoc]

theorem parsePacket_tcp_witness :
    (20 ≤ 44 ∧ byteAt (bufferOf tcpPacket) 0 / 16 = 4 ∧ byteAt (bufferOf tcpPacket) 9 = 6
        ∧ 4 * (byteAt (bufferOf tcpPacket) 0 &&& 0x0F) + 20 ≤ 44)
      ∧ (parsePacket zeroEnv (bufferOf tcpPacket) (44 : Nat)).val.protocol = "TCP"
      ∧ (parsePacket zeroEnv (bufferOf tcpPacket) (44 : Nat)).val.source_port
          = 256 * byteAt (bufferOf tcpPacket) (4 * (byteAt (bufferOf tcpPacket) 0 &&& 0x0F))
              + byteAt (bufferOf tcpPacket) (4 * (byteAt (bufferOf tcpPacket) 0 &&& 0x0F) + 1) :=
  ⟨⟨by decide, by decide, by decide, by decide⟩,
    (parsePacket_tcp zeroEnv (bufferOf tcpPacket) 44 (by decide) (by decide) (by decide)
      (by decide)).1,
    (parsePacket_tcp zeroEnv (bufferOf tcpPacket) 44 (by decide) (by decide) (by decide)
      (by decide)).2.2.2.1⟩

/-- C4: for a buffer of `n ≥ 20` bytes with version nibble 4 whose protocol
byte is neither 6 nor 17, `parsePacket` returns protocol "OTHER" and both ports
0, whatever the other bytes, the indeterminate scalars and the clock are. -/
theorem parsePacket_other (env : ParseEnv) (mem : Nat → Nat) (n : Nat)
    (hn : 20 ≤ n) (hv : byteAt mem 0 / 16 = 4)
    (h6 : byteAt mem 9 ≠ 6) (h17 : byteAt mem 9 ≠ 17) :
    (parsePacket env mem n).val.protocol = "OTHER"
      ∧ (parsePacket env mem n).val.source_port = 0
      ∧ (parsePacket env mem n).val.dest_port = 0 := by
  have h1 : ¬ n < 20 := by omega
  unfold parsePacket
  simp only [toSizeT_natCast, sizeof_IPHeader, shr4, hv, h1, h6, h17]
  simp

theorem parsePacket_other_witness :
    (20 ≤ 28 ∧ byteAt (bufferOf icmpPacket) 0 / 16 = 4
        ∧ byteAt (bufferOf icmpPacket) 9 ≠ 6 ∧ byteAt (bufferOf icmpPacket) 9 ≠ 17)
      ∧ (parsePacket zeroEnv (bufferOf icmpPacket) (28 : Nat)).val.protocol = "OTHER"
      ∧ (parsePacket zeroEnv (bufferOf icmpPacket) (28 : Nat)).val.source_port = 0
      ∧ (parsePacket zeroEnv (bufferOf icmpPacket) (28 : Nat)).val.dest_port = 0 :=
  ⟨⟨by decide, by decide, by decide, by decide⟩,
    parsePacket_other zeroEnv (bufferOf icmpPacket) 28 (by decide) (by decide) (by decide)
      (by decide)⟩

/-! ## Flow table: counters -/

theorem sentSizes_cons_out (sz t : Nat) (rest : List (Nat × Bool × Nat)) :
    sentSizes ((sz, true, t) :: rest) = sz :: sentSizes rest := by
  simp [sentSizes]

theorem sentSizes_cons_in (sz t : Nat) (rest : List (Nat × Bool × Nat)) :
    sentSizes ((sz, false, t) :: rest) = sentSizes rest := by
  simp [sentSizes]

theorem receivedSizes_cons_out (sz t : Nat) (rest : List (Nat × Bool × Nat)) :
    receivedSizes ((sz, true, t) :: rest) = receivedSizes rest := by
  simp [receivedSizes]

theorem receivedSizes_cons_in (sz t : Nat) (rest : List (Nat × Bool × Nat)) :
    receivedSizes ((sz, false, t) :: rest) = sz :: receivedSizes rest := by
  simp [receivedSizes]

theorem applyTransfers_cons (key : SessionKey) (s : System) (op : Nat × Bool × Nat)
    (rest : List (Nat × Bool × Nat)) :
    applyTransfers key s (op :: rest)
      = applyTransfers key (updateSession s key (op.1 : Int) op.2.1 op.2.2) rest := rfl

/-- The entry of `key` after one `updateSession` on a present identity. -/
theorem updateSession_find (s : System) (key : SessionKey) (sz : Nat) (out : Bool) (t : Nat)
    (info : SessionInfo) (h : mapFind key s.sessions_ = some info) :
    mapFind key (updateSession s key (sz : Int) out t).sessions_
      = some (if out then
          { info with
            bytes_sent := (info.bytes_sent + sz) % 2 ^ 64
            packets_sent := (info.packets_sent + 1) % 2 ^ 64
            last_activity := t % 2 ^ 64 }
        else
          { info with
            bytes_received := (info.bytes_received + sz) % 2 ^ 64
            packets_received := (info.packets_received + 1) % 2 ^ 64
            last_activity := t % 2 ^ 64 }) := by
  unfold updateSession
  simp only [h, toUInt64_natCast]
  rw [mapFind_mapAssign_self key _ _ info h]
  cases out <;> rfl

/-- The session `getSession` returns is the entry of `key` afterwards. -/
theorem getSession_find (s : System) (key : SessionKey) (now : Nat) :
    mapFind key (getSession s key now).2.sessions_ = some (getSession s key now).1 := by
  unfold getSession
  cases h : mapFind key s.sessions_ with
  | some v => simp [h]
  | none => simp [mapPut, h, mapFind_append_self]

/-- The sweep keeps exactly the entries that fail the idle test. -/
theorem sweepLoop_kept (t : Nat) (m : List (SessionKey × SessionInfo)) :
    (sweepLoop t m).1 = m.filter (fun e => !idleTooLong t e.2) := by
  induction m with
  | nil => rfl
  | cons e rest ih =>
    obtain ⟨k, v⟩ := e
    by_cases h : idleTooLong t v = true
    · simp [sweepLoop, h, ih]
    · simp [sweepLoop, h, ih]

/-- The sweep closes exactly the sockets stored on the entries it removes. -/
theorem sweepLoop_closed (t : Nat) (m : List (SessionKey × SessionInfo)) (fd : Int) :
    fd ∈ (sweepLoop t m).2 ↔
      ∃ e ∈ m, idleTooLong t e.2 = true ∧ e.2.socket_fd = fd ∧ fd ≠ -1 := by
  induction m with
  | nil => simp [sweepLoop]
  | cons e rest ih =>
    obtain ⟨k, v⟩ := e
    by_cases h : idleTooLong t v = true
    · by_cases hfd : v.socket_fd = -1
      · simp only [sweepLoop, h, hfd, if_true, ne_eq, not_true_eq_false, if_false,
          List.nil_append, ih, List.mem_cons, exists_eq_or_imp]
        constructor
        · intro h1
          exact Or.inr h1
        · rintro (⟨_, h1, h2⟩ | h1)
          · exact absurd h1.symm h2
          · exact h1
      · simp only [sweepLoop, h, hfd, if_true, ne_eq, not_false_eq_true,
          List.singleton_append, ih, List.mem_cons, exists_eq_or_imp]
        constructor
        · rintro (h1 | h1)
          · exact Or.inl ⟨trivial, h1.symm, by rw [h1]; exact hfd⟩
          · exact Or.inr h1
        · rintro (⟨_, h1, _⟩ | h1)
          · exact Or.inl h1.symm
          · exact Or.inr h1
    · simp [sweepLoop, h, ih]

/-- For a time stamp that is not ahead of the clock the `uint64_t` difference
is the plain difference. -/
theorem idleTooLong_iff (now : Nat) (session : SessionInfo)
    (hpast : session.last_activity ≤ now) (hnow : now < 2 ^ 64) :
    idleTooLong now session = true ↔ now - session.last_activity > 300000 := by
  unfold idleTooLong SESSION_TIMEOUT_MS
  rw [decide_eq_true_iff]
  have h : (((now : Int) - (session.last_activity : Int)) % 2 ^ 64).toNat
      = now - session.last_activity := by
    omega
  rw [h]

/-- C6, evaluated at the failing input: a flow stamped at clock reading
1700000001000 is swept at clock reading 1700000000000 (the wall clock was set
back by a second in between).  The flow has not been idle for more than
300000 ms, yet `current_time - last_activity` wraps around in `uint64_t` to
2^64 - 1000, so the flow is removed and its socket closed. -/
theorem cleanupOldSessions_evicts_future_stamp :
    (cleanupOldSessions (oneFlow 7 1700000001000) 1700000000000).sessions_ = []
      ∧ (cleanupOldSessions (oneFlow 7 1700000001000) 1700000000000).closed = [7]
      ∧ ¬ ((1700000000000 : Int) - 1700000001000 > 300000) := by
  decide

/-- The sweep rule for time stamps that are not ahead of the clock: for every
flow table, every clock reading `now` and every flow of the table whose
`last_activity` is at most `now`, `cleanupOldSessions` removes the flow if and
only if `now - last_activity > 300000`. -/
theorem cleanupOldSessions_removes_iff (s : System) (now : Nat)
    (f : SessionKey × SessionInfo) (hmem : f ∈ s.sessions_)
    (hnow : now < 2 ^ 64) (hpast : f.2.last_activity ≤ now) :
    f ∉ (cleanupOldSessions s now).sessions_ ↔ now - f.2.last_activity > 300000 := by
  have hm : now % 2 ^ 64 = now := Nat.mod_eq_of_lt hnow
  unfold cleanupOldSessions
  simp only [sweepLoop_kept, hm, List.mem_filter, Bool.not_eq_true']
  rw [← idleTooLong_iff now f.2 hpast hnow]
  constructor
  · intro h
    by_contra hc
    exact h ⟨hmem, by simpa using hc⟩
  · intro h hc
    simp [h] at hc

theorem cleanupOldSessions_removes_iff_witness :
    ((tcpKey, { SessionInfo.new with socket_fd := 7, last_activity := 1000, is_active := true })
          ∈ (oneFlow 7 1000).sessions_
        ∧ 301001 < 2 ^ 64 ∧ 1000 ≤ 301001)
      ∧ ((tcpKey,
            { SessionInfo.new with socket_fd := 7, last_activity := 1000, is_active := true })
          ∉ (cleanupOldSessions (oneFlow 7 1000) 301001).sessions_
        ↔ 301001 - 1000 > 300000)
      ∧ (cleanupOldSessions (oneFlow 7 1000) 301001).sessions_ = []
      ∧ (cleanupOldSessions (oneFlow 7 1000) 301000).sessions_ = (oneFlow 7 1000).sessions_
      ∧ (cleanupOldSessions (oneFlow 7 1000) 1001).sessions_ = (oneFlow 7 1000).sessions_ :=
  ⟨⟨by decide, by decide, by decide⟩,
    cleanupOldSessions_removes_iff (oneFlow 7 1000) 301001
      (tcpKey, { SessionInfo.new with socket_fd := 7, last_activity := 1000, is_active := true })
      (by decide) (by decide) (by decide),
    by decide, by decide, by decide⟩

/-- What `resetStats` does in every state: both maps are emptied and no
descriptor is passed to `close`. -/
theorem resetStats_effect (s : System) :
    (resetStats s).sessions_ = [] ∧ (resetStats s).protocol_stats_ = []
      ∧ (resetStats s).closed = s.closed := by
  simp [resetStats]

/-- C7, evaluated at the failing input: in a table whose one flow holds the
open descriptor 7, `resetStats` empties the flow set and the aggregates, and
descriptor 7 is never passed to `close`. -/
theorem resetStats_leaves_socket_open :
    (resetStats (oneFlow 7 2000)).sessions_ = []
      ∧ (resetStats (oneFlow 7 2000)).protocol_stats_ = []
      ∧ (7 : Int) ∉ (resetStats (oneFlow 7 2000)).closed := by
  decide

/-! ## Forwarder -/

theorem createSocket_unsupported (env : ForwardEnv) (s : System) (protocol : String)
    (h1 : protocol ≠ "TCP") (h2 : protocol ≠ "UDP") :
    createSocket env s protocol = (-1, s) := by
  simp [createSocket, h1, h2]

theorem setSocketFd_same (s : System) (key : SessionKey) (session : SessionInfo)
    (h : mapFind key s.sessions_ = some session) :
    setSocketFd s key session.socket_fd = s := by
  unfold setSocketFd
  simp only [h]
  have : ({ session with socket_fd := session.socket_fd } : SessionInfo) = session := rfl
  rw [this, mapAssign_same key session _ h]

/-- C8 as stated fails: on the empty table, `forwardPacket` for an identity
with protocol "OTHER" returns false, but the flow table then holds an entry for
that identity, created by `getSession` before `createSocket` looked at the
protocol name. -/
theorem forwardPacket_unsupported_creates_entry :
    (forwardPacket goodEnv System.init icmpKey).1 = false
      ∧ (forwardPacket goodEnv System.init icmpKey).2.sessions_
          = [(icmpKey, { SessionInfo.new with last_activity := 1000, is_active := true })]
      ∧ (forwardPacket goodEnv System.init icmpKey).2.sessions_ ≠ System.init.sessions_ := by
  decide

/-- C8, amended: in a state where sockets are stored on TCP and UDP identities
only, `forwardPacket` for an identity whose protocol name is neither "TCP" nor
"UDP" returns false and does what `getSession(key)` alone does: a state that
already holds the identity is left exactly as it was, and otherwise one fresh
entry (no socket, counters 0, stamped with the clock) is added for it while
every other entry, the aggregates and the sockets stay as they were. -/
theorem forwardPacket_unsupported (env : ForwardEnv) (s : System) (key : SessionKey)
    (h1 : key.protocol ≠ "TCP") (h2 : key.protocol ≠ "UDP") (hinv : SocketsSupported s) :
    (forwardPacket env s key).1 = false
      ∧ (forwardPacket env s key).2 = (getSession s key env.now_get).2
      ∧ (∀ session, mapFind key s.sessions_ = some session → (forwardPacket env s key).2 = s)
      ∧ (mapFind key s.sessions_ = none →
          (forwardPacket env s key).2
            = { s with sessions_ := s.sessions_ ++ [(key, { SessionInfo.new with
                  last_activity := env.now_get % 2 ^ 64, is_active := true })] }) := by
  have hsock : ∀ session, mapFind key s.sessions_ = some session → session.socket_fd = -1 := by
    intro session hf
    by_contra hne
    rcases hinv (key, session) (mapFind_mem key session _ hf) hne with h | h
    · exact h1 h
    · exact h2 h
  have hfd : (getSession s key env.now_get).1.socket_fd = -1 := by
    unfold getSession
    cases h : mapFind key s.sessions_ with
    | some v => simpa [h] using hsock v h
    | none => simp [h, SessionInfo.new]
  have hfind := getSession_find s key env.now_get
  have hset := setSocketFd_same _ key _ hfind
  rw [hfd] at hset
  have key_eq : forwardPacket env s key = (false, (getSession s key env.now_get).2) := by
    unfold forwardPacket
    simp only [hfd, createSocket_unsupported env _ key.protocol h1 h2, hset, if_true]
  refine ⟨by rw [key_eq], by rw [key_eq], ?_, ?_⟩
  · intro session h
    rw [key_eq]
    simp [getSession, h]
  · intro h
    rw [key_eq]
    simp [getSession, h, mapPut]

theorem forwardPacket_unsupported_witness :
    (icmpKey.protocol ≠ "TCP" ∧ icmpKey.protocol ≠ "UDP" ∧ SocketsSupported (oneFlow 7 1000))
      ∧ (forwardPacket goodEnv (oneFlow 7 1000) icmpKey).1 = false
      ∧ (forwardPacket goodEnv (oneFlow 7 1000) icmpKey).2
          = (getSession (oneFlow 7 1000) icmpKey goodEnv.now_get).2 :=
  ⟨⟨by decide, by decide, by decide⟩,
    (forwardPacket_unsupported goodEnv (oneFlow 7 1000) icmpKey (by decide) (by decide)
      (by decide)).1,
    (forwardPacket_unsupported goodEnv (oneFlow 7 1000) icmpKey (by decide) (by decide)
      (by decide)).2.1⟩

/-! ### Sockets are stored on TCP and UDP identities only -/

theorem socketsSupported_init : SocketsSupported System.init := by
  intro e he; simp [System.init] at he

theorem socketsSupported_getSession (s : System) (key : SessionKey) (now : Nat)
    (h : SocketsSupported s) : SocketsSupported (getSession s key now).2 := by
  unfold getSession
  cases hf : mapFind key s.sessions_ with
  | some v => simpa [hf] using h
  | none =>
    intro e he hfd
    simp only [hf, mapPut, List.mem_append, List.mem_singleton] at he
    rcases he with he | he
    · exact h e he hfd
    · rw [he] at hfd; simp [SessionInfo.new] at hfd

theorem socketsSupported_updateSession (s : System) (key : SessionKey) (bytes : Int)
    (out : Bool) (now : Nat) (h : SocketsSupported s) :
    SocketsSupported (updateSession s key bytes out now) := by
  unfold updateSession
  cases hf : mapFind key s.sessions_ with
  | none => simpa [hf] using h
  | some v =>
    intro e he hfd
    simp only [hf] at he
    rcases mem_mapAssign _ _ _ _ he with he | he
    · exact h e he hfd
    · have hv := h (key, v) (mapFind_mem key v _ hf)
      rw [he] at hfd ⊢
      cases out <;> exact hv (by simpa using hfd)

theorem socketsSupported_closeSession (s : System) (key : SessionKey)
    (h : SocketsSupported s) : SocketsSupported (closeSession s key) := by
  unfold closeSession
  cases hf : mapFind key s.sessions_ with
  | none => simpa [hf] using h
  | some v =>
    intro e he hfd
    simp only [hf, mapErase, List.mem_filter] at he
    exact h e he.1 hfd

theorem socketsSupported_cleanupOldSessions (s : System) (now : Nat)
    (h : SocketsSupported s) : SocketsSupported (cleanupOldSessions s now) := by
  intro e he hfd
  simp only [cleanupOldSessions, sweepLoop_kept, List.mem_filter] at he
  exact h e he.1 hfd

theorem socketsSupported_updateProtocolStats (s : System) (protocol : String) (bytes : Int)
    (h : SocketsSupported s) : SocketsSupported (updateProtocolStats s protocol bytes) := h

theorem socketsSupported_resetStats (s : System) : SocketsSupported (resetStats s) := by
  intro e he; simp [resetStats] at he

theorem socketsSupported_setSocketFd (s : System) (key : SessionKey) (fd : Int)
    (h : SocketsSupported s)
    (hfd : fd ≠ -1 → key.protocol = "TCP" ∨ key.protocol = "UDP") :
    SocketsSupported (setSocketFd s key fd) := by
  unfold setSocketFd
  cases hf : mapFind key s.sessions_ with
  | none => simpa [hf] using h
  | some v =>
    intro e he hne
    simp only [hf] at he
    rcases mem_mapAssign _ _ _ _ he with he | he
    · exact h e he hne
    · rw [he] at hne ⊢
      exact hfd hne

/-- Every call of `forwardPacket`, whatever the system calls return, keeps
sockets on TCP and UDP identities only. -/
theorem socketsSupported_forwardPacket (env : ForwardEnv) (s : System) (key : SessionKey)
    (h : SocketsSupported s) : SocketsSupported (forwardPacket env s key).2 := by
  have hg := socketsSupported_getSession s key env.now_get h
  have hsend : ∀ st fd, SocketsSupported st →
      SocketsSupported (sendAndRecord env st key fd).2 := by
    intro st fd hst
    unfold sendAndRecord
    simp only []
    split
    · exact socketsSupported_updateSession _ _ _ _ _ hst
    · exact hst
  unfold forwardPacket
  simp only []
  split
  · have hc : SocketsSupported (createSocket env (getSession s key env.now_get).2 key.protocol).2
        ∧ ((createSocket env (getSession s key env.now_get).2 key.protocol).1 ≠ -1 →
            key.protocol = "TCP" ∨ key.protocol = "UDP") := by
      unfold createSocket
      by_cases hp : key.protocol = "TCP" ∨ key.protocol = "UDP"
      · by_cases hr : env.socket_result = -1
        · simp only [hp, hr, if_true]
          exact ⟨hg, fun hne => absurd rfl hne⟩
        · simp only [hp, hr, if_true, if_false]
          exact ⟨hg, fun _ => trivial⟩
      · simp only [hp, if_false]
        exact ⟨hg, fun hne => absurd rfl hne⟩
    have hs2 := socketsSupported_setSocketFd _ key _ hc.1 hc.2
    split
    · exact hs2
    · split
      · have := socketsSupported_setSocketFd _ key (-1) hs2 (fun hne => absurd rfl hne)
        exact this
      · exact hsend _ _ hs2
  · exact hsend _ _ hg

theorem socketsSupported_forwardPacket_witness :
    SocketsSupported System.init
      ∧ SocketsSupported (forwardPacket goodEnv System.init tcpKey).2 :=
  ⟨by decide, socketsSupported_forwardPacket goodEnv System.init tcpKey (by decide)⟩

/-! ## Protocol statistics -/

theorem sortInsert_perm {α : Type} (comp : α → α → Bool) (x : α) (l : List α) :
    (sortInsert comp x l).Perm (x :: l) := by
  induction l with
  | nil => exact List.Perm.refl _
  | cons y ys ih =>
    by_cases h : comp x y = true
    · simp [sortInsert, h]
    · simp only [sortInsert, h]
      exact (List.Perm.cons y ih).trans (List.Perm.swap x y ys)

theorem foldl_sortInsert_perm {α : Type} (comp : α → α → Bool) (l : List α) :
    ∀ acc : List α,
      (l.foldl (fun sorted x => sortInsert comp x sorted) acc).Perm (acc ++ l) := by
  induction l with
  | nil => intro acc; simp
  | cons x xs ih =>
    intro acc
    rw [List.foldl_cons]
    refine (ih _).trans ?_
    have h1 : (sortInsert comp x acc ++ xs).Perm ((x :: acc) ++ xs) :=
      List.Perm.append_right xs (sortInsert_perm comp x acc)
    refine h1.trans ?_
    have h2 : (acc ++ x :: xs).Perm (x :: (acc ++ xs)) := List.perm_middle
    simpa using h2.symm

/-- The sort returns a rearrangement of its input. -/
theorem stdSort_perm {α : Type} (comp : α → α → Bool) (l : List α) :
    (stdSort comp l).Perm l := by
  simpa [stdSort] using foldl_sortInsert_perm comp l []

theorem sortInsert_sorted (x : ProtocolStats) (l : List ProtocolStats)
    (h : l.Pairwise DescByCount) :
    (sortInsert byPacketCountDesc x l).Pairwise DescByCount := by
  induction l with
  | nil => simp [sortInsert]
  | cons y ys ih =>
    rw [List.pairwise_cons] at h
    by_cases hc : byPacketCountDesc x y = true
    · simp only [sortInsert, hc, if_true]
      have hxy : y.packet_count < x.packet_count := by
        simpa [byPacketCountDesc] using hc
      refine List.pairwise_cons.2 ⟨?_, List.pairwise_cons.2 h⟩
      intro z hz
      rcases List.mem_cons.1 hz with hz | hz
      · rw [hz]; exact Nat.le_of_lt hxy
      · have := h.1 z hz
        unfold DescByCount at this ⊢
        omega
    · simp only [sortInsert, hc]
      have hxy : x.packet_count ≤ y.packet_count := by
        simpa [byPacketCountDesc] using hc
      refine List.pairwise_cons.2 ⟨?_, ih h.2⟩
      intro z hz
      rcases List.mem_cons.1 ((sortInsert_perm _ x ys).mem_iff.1 hz) with hz | hz
      · rw [hz]; exact hxy
      · exact h.1 z hz

/-- Sorting with the comparator of `getProtocolStats` yields a list in which
every entry has at least the packet count of every later entry. -/
theorem stdSort_sorted (l : List ProtocolStats) :
    (stdSort byPacketCountDesc l).Pairwise DescByCount := by
  have aux : ∀ (l acc : List ProtocolStats), acc.Pairwise DescByCount →
      (l.foldl (fun sorted x => sortInsert byPacketCountDesc x sorted) acc).Pairwise
        DescByCount := by
    intro l
    induction l with
    | nil => intro acc h; simpa using h
    | cons x xs ih =>
      intro acc h
      rw [List.foldl_cons]
      exact ih _ (sortInsert_sorted x acc h)
  exact aux l [] List.Pairwise.nil

/-- C9: after any sequence of protocol observations, from any state and for
any order in which the hash table is traversed, the list `getProtocolStats`
returns is sorted descending by `packet_count`: of two adjacent entries the
earlier has a packet count at least that of the later. -/
theorem getProtocolStats_sorted_desc (s : System) (obs : List (String × Int))
    (traversal : List (String × ProtocolStats) → List (String × ProtocolStats)) :
    (getProtocolStats (observe s obs) traversal).Chain'
      (fun earlier later => later.packet_count ≤ earlier.packet_count) := by
  have h : (getProtocolStats (observe s obs) traversal).Pairwise DescByCount :=
    stdSort_sorted _
  exact List.Pairwise.chain' h

/-- C10 as stated fails: "TCP" is observed first, then "UDP", once each.  When
the hash table is traversed newest entry first, `getProtocolStats` returns
"UDP" before "TCP" although the two packet counts are equal; when it is
traversed oldest entry first, the same observations give the other order. -/
theorem getProtocolStats_tie_follows_traversal :
    (observe System.init [("TCP", 40), ("UDP", 28)]).protocol_stats_.map (fun pair => pair.1)
        = ["TCP", "UDP"]
      ∧ getProtocolStats (observe System.init [("TCP", 40), ("UDP", 28)]) List.reverse
        = [{ protocol := "UDP", packet_count := 1, total_bytes := 28 },
           { protocol := "TCP", packet_count := 1, total_bytes := 40 }]
      ∧ getProtocolStats (observe System.init [("TCP", 40), ("UDP", 28)]) id
        = [{ protocol := "TCP", packet_count := 1, total_bytes := 40 },
           { protocol := "UDP", packet_count := 1, total_bytes := 28 }] := by
  decide

/-- C10, amended: after any sequence of `updateProtocolStats` calls, for any
order in which the hash table is traversed (a rearrangement of its entries),
`getProtocolStats` returns exactly the stored aggregates, rearranged so that
every entry has at least the packet count of every later one.  The order among
equal packet counts is left to the traversal and the sort. -/
theorem getProtocolStats_perm_sorted (s : System) (obs : List (String × Int))
    (traversal : List (String × ProtocolStats) → List (String × ProtocolStats))
    (htrav : (traversal (observe s obs).protocol_stats_).Perm (observe s obs).protocol_stats_) :
    (getProtocolStats (observe s obs) traversal).Perm
        ((observe s obs).protocol_stats_.map (fun pair => pair.2))
      ∧ (getProtocolStats (observe s obs) traversal).Pairwise
        (fun earlier later => later.packet_count ≤ earlier.packet_count) := by
  refine ⟨?_, stdSort_sorted _⟩
  unfold getProtocolStats
  exact (stdSort_perm _ _).trans (htrav.map _)

theorem getProtocolStats_perm_sorted_witness :
    ((List.reverse (observe System.init [("TCP", 40), ("UDP", 28), ("UDP", 10)]).protocol_stats_).Perm
        (observe System.init [("TCP", 40), ("UDP", 28), ("UDP", 10)]).protocol_stats_)
      ∧ (getProtocolStats (observe System.init [("TCP", 40), ("UDP", 28), ("UDP", 10)])
            List.reverse).Perm
          ((observe System.init [("TCP", 40), ("UDP", 28), ("UDP", 10)]).protocol_stats_.map
            (fun pair => pair.2))
      ∧ (getProtocolStats (observe System.init [("TCP", 40), ("UDP", 28), ("UDP", 10)])
            List.reverse).Pairwise
          (fun earlier later => later.packet_count ≤ earlier.packet_count) :=
  ⟨List.reverse_perm _,
    getProtocolStats_perm_sorted System.init [("TCP", 40), ("UDP", 28), ("UDP", 10)]
      List.reverse (List.reverse_perm _)⟩

/-! ## Further properties of the flow table -/

/-- Counters of a present flow after any run of transfers, without a bound on
the totals: each counter is its old value plus the matching sum or count,
reduced modulo 2^64. -/
theorem applyTransfers_counters_mod (key : SessionKey) (ops : List (Nat × Bool × Nat)) :
    ∀ (s : System) (info : SessionInfo) (a b c d : Nat),
      mapFind key s.sessions_ = some info →
      info.bytes_sent = a % 2 ^ 64 → info.packets_sent = b % 2 ^ 64 →
      info.bytes_received = c % 2 ^ 64 → info.packets_received = d % 2 ^ 64 →
      ∃ info', mapFind key (applyTransfers key s ops).sessions_ = some info'
        ∧ info'.bytes_sent = (a + (sentSizes ops).sum) % 2 ^ 64
        ∧ info'.packets_sent = (b + (sentSizes ops).length) % 2 ^ 64
        ∧ info'.bytes_received = (c + (receivedSizes ops).sum) % 2 ^ 64
        ∧ info'.packets_received = (d + (receivedSizes ops).length) % 2 ^ 64 := by
  induction ops with
  | nil =>
    intro s info a b c d h ha hb hc hd
    exact ⟨info, h, by simpa [sentSizes] using ha, by simpa [sentSizes] using hb,
      by simpa [receivedSizes] using hc, by simpa [receivedSizes] using hd⟩
  | cons op rest ih =>
    obtain ⟨sz, out, t⟩ := op
    intro s info a b c d h ha hb hc hd
    have hstep := updateSession_find s key sz out t info h
    rw [applyTransfers_cons]
    cases out with
    | true =>
      rw [sentSizes_cons_out, receivedSizes_cons_out, List.sum_cons, List.length_cons]
      simp only [if_true] at hstep
      obtain ⟨info', hf, ea, eb, ec, ed⟩ := ih _ _ (a + sz) (b + 1) c d hstep
        (by simp only []; omega) (by simp only []; omega) hc hd
      exact ⟨info', hf, by rw [ea]; congr 1; omega, by rw [eb]; congr 1; omega, ec, ed⟩
    | false =>
      rw [sentSizes_cons_in, receivedSizes_cons_in, List.sum_cons, List.length_cons]
      simp only [Bool.false_eq_true, if_false] at hstep
      obtain ⟨info', hf, ea, eb, ec, ed⟩ := ih _ _ a b (c + sz) (d + 1) hstep ha hb
        (by simp only []; omega) (by simp only []; omega)
      exact ⟨info', hf, ea, eb, by rw [ec]; congr 1; omega, by rw [ed]; congr 1; omega⟩

/-- No update is lost: a flow freshly created by `getSession(key)` has, after
any run of `updateSession(key, ...)` calls with non-negative sizes, each counter
equal to the matching total modulo 2^64. -/
theorem updateSession_totals_mod (s : System) (key : SessionKey) (now : Nat)
    (ops : List (Nat × Bool × Nat)) (hfresh : mapFind key s.sessions_ = none) :
    ∃ flow, mapFind key (applyTransfers key (getSession s key now).2 ops).sessions_ = some flow
      ∧ flow.bytes_sent = (sentSizes ops).sum % 2 ^ 64
      ∧ flow.packets_sent = (sentSizes ops).length % 2 ^ 64
      ∧ flow.bytes_received = (receivedSizes ops).sum % 2 ^ 64
      ∧ flow.packets_received = (receivedSizes ops).length % 2 ^ 64 := by
  have hfind := getSession_find s key now
  have hnew : (getSession s key now).1
      = { SessionInfo.new with last_activity := now % 2 ^ 64, is_active := true } := by
    simp [getSession, hfresh]
  rw [hnew] at hfind
  obtain ⟨flow, hf, a, b, c, d⟩ := applyTransfers_counters_mod key ops _ _ 0 0 0 0 hfind
    (by simp [SessionInfo.new]) (by simp [SessionInfo.new])
    (by simp [SessionInfo.new]) (by simp [SessionInfo.new])
  exact ⟨flow, hf, by simpa using a, by simpa using b, by simpa using c, by simpa using d⟩

theorem updateSession_totals_mod_witness :
    mapFind tcpKey System.init.sessions_ = none
      ∧ ∃ flow,
          mapFind tcpKey
              (applyTransfers tcpKey (getSession System.init tcpKey 1000).2
                [(1500, true, 1001), (40, false, 1002)]).sessions_
            = some flow
          ∧ flow.bytes_sent = (sentSizes [(1500, true, 1001), (40, false, 1002)]).sum % 2 ^ 64
          ∧ flow.packets_sent
              = (sentSizes [(1500, true, 1001), (40, false, 1002)]).length % 2 ^ 64
          ∧ flow.bytes_received
              = (receivedSizes [(1500, true, 1001), (40, false, 1002)]).sum % 2 ^ 64
          ∧ flow.packets_received
              = (receivedSizes [(1500, true, 1001), (40, false, 1002)]).length % 2 ^ 64 :=
  ⟨by decide,
    updateSession_totals_mod System.init tcpKey 1000 [(1500, true, 1001), (40, false, 1002)]
      (by decide)⟩

/-- The sweep closes the socket of every flow it removes, and nothing else:
a descriptor is in the close record after `cleanupOldSessions` exactly if it
was there before or is stored on a flow that fails the idle test. -/
theorem cleanupOldSessions_closed_iff (s : System) (now : Nat) (fd : Int) :
    fd ∈ (cleanupOldSessions s now).closed ↔
      fd ∈ s.closed ∨
        ∃ f ∈ s.sessions_, idleTooLong (now % 2 ^ 64) f.2 = true ∧ f.2.socket_fd = fd
          ∧ fd ≠ -1 := by
  simp only [cleanupOldSessions, List.mem_append, sweepLoop_closed]

/-- The sweep removes nothing but idle flows and never adds or alters one:
the table afterwards is the table before without the entries that fail the
idle test, in the same order. -/
theorem cleanupOldSessions_sessions (s : System) (now : Nat) :
    (cleanupOldSessions s now).sessions_
      = s.sessions_.filter (fun f => !idleTooLong (now % 2 ^ 64) f.2) := by
  simp only [cleanupOldSessions, sweepLoop_kept]

/-! ## Forwarder: one socket per identity -/

theorem getSession_frame (s : System) (key : SessionKey) (now : Nat) :
    (getSession s key now).2.opened = s.opened
      ∧ (getSession s key now).2.closed = s.closed
      ∧ (getSession s key now).2.readers = s.readers
      ∧ (getSession s key now).2.sent_on = s.sent_on := by
  unfold getSession
  cases mapFind key s.sessions_ <;> exact ⟨rfl, rfl, rfl, rfl⟩

theorem updateSession_keeps_socket (s : System) (key : SessionKey) (bytes : Int) (out : Bool)
    (now : Nat) (v : SessionInfo) (h : mapFind key s.sessions_ = some v) :
    ∃ v', mapFind key (updateSession s key bytes out now).sessions_ = some v'
      ∧ v'.socket_fd = v.socket_fd := by
  unfold updateSession
  simp only [h]
  refine ⟨_, mapFind_mapAssign_self key _ _ v h, ?_⟩
  cases out <;> rfl

theorem updateSession_frame (s : System) (key : SessionKey) (bytes : Int) (out : Bool)
    (now : Nat) :
    (updateSession s key bytes out now).opened = s.opened
      ∧ (updateSession s key bytes out now).closed = s.closed
      ∧ (updateSession s key bytes out now).readers = s.readers
      ∧ (updateSession s key bytes out now).sent_on = s.sent_on := by
  unfold updateSession
  cases mapFind key s.sessions_ <;> exact ⟨rfl, rfl, rfl, rfl⟩

/-- Sending on a descriptor opens, closes and starts nothing, records the
descriptor, and leaves the socket stored on the flow as it was. -/
theorem sendAndRecord_effect (env : ForwardEnv) (s : System) (key : SessionKey) (fd : Int)
    (v : SessionInfo) (h : mapFind key s.sessions_ = some v) :
    (sendAndRecord env s key fd).2.opened = s.opened
      ∧ (sendAndRecord env s key fd).2.closed = s.closed
      ∧ (sendAndRecord env s key fd).2.readers = s.readers
      ∧ (sendAndRecord env s key fd).2.sent_on = s.sent_on ++ [fd]
      ∧ ∃ v', mapFind key (sendAndRecord env s key fd).2.sessions_ = some v'
          ∧ v'.socket_fd = v.socket_fd := by
  unfold sendAndRecord
  simp only []
  by_cases hs : env.sent > 0
  · rw [if_pos hs]
    have hf := updateSession_frame { s with sent_on := s.sent_on ++ [fd] } key env.sent true
      env.now_update
    exact ⟨hf.1, hf.2.1, hf.2.2.1, hf.2.2.2,
      updateSession_keeps_socket { s with sent_on := s.sent_on ++ [fd] } key _ _ _ v h⟩
  · rw [if_neg hs]
    exact ⟨rfl, rfl, rfl, rfl, v, h, rfl⟩

/-- On a flow that holds a socket, `forwardPacket` goes straight to `send` on
that socket. -/
theorem forwardPacket_connected (env : ForwardEnv) (s : System) (key : SessionKey)
    (v : SessionInfo) (h : mapFind key s.sessions_ = some v) (hfd : v.socket_fd ≠ -1) :
    forwardPacket env s key = sendAndRecord env s key v.socket_fd := by
  unfold forwardPacket
  simp [getSession, h, hfd]

/-- A first `forwardPacket` whose `socket` and `connect` succeed: the descriptor
is recorded as opened, stored on the flow, handed to a reader thread, and then
used for `send`. -/
theorem forwardPacket_first (env : ForwardEnv) (s : System) (key : SessionKey)
    (hproto : key.protocol = "TCP" ∨ key.protocol = "UDP")
    (hfirst : ∀ session, mapFind key s.sessions_ = some session → session.socket_fd = -1)
    (hsock : env.socket_result ≠ -1) (hconn : connectToDestination env = true) :
    forwardPacket env s key
      = sendAndRecord env
          { (getSession s key env.now_get).2 with
            sessions_ := mapAssign key
              { (getSession s key env.now_get).1 with socket_fd := env.socket_result }
              (getSession s key env.now_get).2.sessions_
            opened := (getSession s key env.now_get).2.opened ++ [env.socket_result]
            readers := (getSession s key env.now_get).2.readers ++ [(env.socket_result, key)] }
          key env.socket_result := by
  have hfd : (getSession s key env.now_get).1.socket_fd = -1 := by
    unfold getSession
    cases h : mapFind key s.sessions_ with
    | some v => simpa [h] using hfirst v h
    | none => simp [h, SessionInfo.new]
  have hfind := getSession_find s key env.now_get
  unfold forwardPacket
  simp only [hfd, if_true, createSocket, hproto, hsock, if_false, setSocketFd, hfind, hconn,
    not_true_eq_false]

/-! ## Flow table: close -/

section Table

variable {κ ν : Type} [DecidableEq κ]

theorem mapErase_cons (key k : κ) (v : ν) (rest : List (κ × ν)) :
    mapErase key ((k, v) :: rest)
      = if k = key then mapErase key rest else (k, v) :: mapErase key rest := by
  by_cases hk : k = key
  · simp [mapErase, hk]
  · simp [mapErase, hk]

theorem mapFind_mapErase_self (key : κ) (m : List (κ × ν)) :
    mapFind key (mapErase key m) = none := by
  induction m with
  | nil => rfl
  | cons e rest ih =>
    obtain ⟨k, v⟩ := e
    rw [mapErase_cons]
    by_cases hk : k = key
    · rw [if_pos hk]; exact ih
    · rw [if_neg hk]; simp [mapFind, hk, ih]

theorem mapFind_mapErase_other (key k' : κ) (m : List (κ × ν)) (h : k' ≠ key) :
    mapFind k' (mapErase key m) = mapFind k' m := by
  induction m with
  | nil => rfl
  | cons e rest ih =>
    obtain ⟨k, v⟩ := e
    rw [mapErase_cons]
    by_cases hk : k = key
    · have hkk : ¬ k = k' := by rw [hk]; exact fun e => h e.symm
      rw [if_pos hk, ih]
      simp [mapFind, hkk]
    · rw [if_neg hk]
      simp [mapFind, ih]

end Table

/-- C12: `closeSession` is idempotent.  Closing an identity that is absent
returns the state as it is (flow set, aggregates and every record of system
calls), and the function is total, so there is no error to raise; closing an
identity twice gives the state that closing it once gives, in which the
identity is absent, every other identity maps to what it mapped to before,
and the aggregates are unchanged. -/
theorem closeSession_idempotent (s : System) (key : SessionKey) :
    (mapFind key s.sessions_ = none → closeSession s key = s)
      ∧ closeSession (closeSession s key) key = closeSession s key
      ∧ mapFind key (closeSession s key).sessions_ = none
      ∧ (∀ other, other ≠ key →
          mapFind other (closeSession s key).sessions_ = mapFind other s.sessions_)
      ∧ (closeSession s key).protocol_stats_ = s.protocol_stats_ := by
  have habsent : mapFind key (closeSession s key).sessions_ = none := by
    unfold closeSession
    cases h : mapFind key s.sessions_ with
    | none => simpa using h
    | some v => simp [mapFind_mapErase_self]
  have hnoop : ∀ st : System, mapFind key st.sessions_ = none → closeSession st key = st := by
    intro st h
    simp [closeSession, h]
  refine ⟨hnoop s, hnoop _ habsent, habsent, ?_, ?_⟩
  · intro other hne
    unfold closeSession
    cases h : mapFind key s.sessions_ with
    | none => rfl
    | some v => simp [mapFind_mapErase_other key other _ hne]
  · unfold closeSession
    cases h : mapFind key s.sessions_ <;> rfl

/-! ## Hex preview -/

/-- The stream output of one byte is its two-digit lowercase hexadecimal
text. -/
theorem hex2_eq_twoHexDigits (b : Nat) (h : b < 256) : hex2 b = twoHexDigits b := by
  interval_cases b <;> rfl

theorem intercalate_go_snoc (s : String) (as : List String) (x : String) :
    ∀ acc : String,
      String.intercalate.go acc s (as ++ [x]) = String.intercalate.go acc s as ++ s ++ x := by
  induction as with
  | nil => intro acc; simp [String.intercalate.go]
  | cons a rest ih => intro acc; simp [String.intercalate.go, ih]

theorem intercalate_snoc (s : String) (l : List String) (x : String) (h : l ≠ []) :
    String.intercalate s (l ++ [x]) = String.intercalate s l ++ s ++ x := by
  cases l with
  | nil => exact absurd rfl h
  | cons a rest => simp [String.intercalate, intercalate_go_snoc]

/-- The loop of `bytesToHex` after `m` of its `N` rounds: the items so far
joined by single spaces, followed by one more space while rounds remain. -/
theorem hexLoop_eq (item : Nat → String) (N : Nat) :
    ∀ m, m ≤ N →
      (List.range m).foldl
          (fun ss i => ss ++ item i ++ (if (i : Int) < (N : Int) - 1 then " " else "")) ""
        = String.intercalate " " ((List.range m).map item)
            ++ (if 0 < m ∧ m < N then " " else "") := by
  intro m
  induction m with
  | zero => intro _; simp [String.intercalate]
  | succ m ih =>
    intro hm
    have hlt : m < N := by omega
    rw [List.range_succ, List.foldl_append, List.foldl_cons, List.foldl_nil, ih (by omega),
      List.map_append, List.map_cons, List.map_nil]
    have hsep : ((m : Int) < (N : Int) - 1) ↔ (m + 1 < N) := by omega
    by_cases h0 : m = 0
    · subst h0
      simp [String.intercalate, String.intercalate.go, hsep]
    · have hne : (List.range m).map item ≠ [] := by
        cases m with
        | zero => exact absurd rfl h0
        | succ k => simp [List.range_succ]
      rw [intercalate_snoc _ _ _ hne]
      have hpos : 0 < m := by omega
      simp only [hpos, hlt, and_self, if_true, hsep, Nat.succ_pos, true_and]

theorem range_map_getD (bytes : List Nat) :
    ∀ N, N ≤ bytes.length → (List.range N).map (fun i => bytes.getD i 0) = bytes.take N := by
  intro N
  induction N with
  | zero => intro _; simp
  | succ k ih =>
    intro hk
    have hlt : k < bytes.length := by omega
    rw [List.range_succ, List.map_append, ih (by omega), List.take_succ]
    simp [List.getD, List.getElem?_eq_getElem hlt]

theorem take_min_length (bytes : List Nat) :
    bytes.take (min bytes.length 64) = bytes.take 64 := by
  by_cases h : bytes.length ≤ 64
  · rw [Nat.min_eq_left h, List.take_of_length_le (le_refl _), List.take_of_length_le h]
  · rw [Nat.min_eq_right (by omega)]

/-- C13: for every byte sequence, of any length `n ≥ 0`, `bytesToHex` with the
default `max_bytes = 64` returns the two-digit lowercase hex of the first
`min(n, 64)` bytes separated by single spaces, with no trailing space, followed
by "..." exactly when `n > 64`. -/
theorem bytesToHex_preview (bytes : List Nat) :
    (bytesToHex (bufferOf bytes) 0 (bytes.length : Int) DEFAULT_MAX_BYTES).val
      = hexPreview bytes := by
  have hB : min (bytes.length : Int) 64 = ((min bytes.length 64 : Nat) : Int) := by omega
  have hitems : (List.range (min bytes.length 64)).map
        (fun i => hex2 (byteAt (bufferOf bytes) (0 + i)))
      = (bytes.take 64).map (fun b => twoHexDigits (b % 256)) := by
    rw [← take_min_length, ← range_map_getD bytes _ (Nat.min_le_left _ _), List.map_map]
    apply List.map_congr_left
    intro i _
    simp only [Function.comp, byteAt, bufferOf, Nat.zero_add]
    exact hex2_eq_twoHexDigits _ (Nat.mod_lt _ (by decide))
  have hloop := hexLoop_eq (fun i => hex2 (byteAt (bufferOf bytes) (0 + i)))
    (min bytes.length 64) (min bytes.length 64) (le_refl _)
  simp only [lt_self_iff_false, and_false, if_false, String.append_empty] at hloop
  unfold bytesToHex hexPreview DEFAULT_MAX_BYTES
  simp only [hB, Int.toNat_ofNat, hloop, hitems]
  by_cases hgt : bytes.length > 64
  · have : ((bytes.length : Int) > 64) := by omega
    simp [hgt, this]
  · have : ¬ ((bytes.length : Int) > 64) := by omega
    simp [hgt, this]

/-- The preview of three bytes, of no bytes, and of 65 bytes (64 shown, then
the marker). -/
theorem hexPreview_examples :
    hexPreview [0, 10, 255] = "00 0a ff"
      ∧ hexPreview [] = ""
      ∧ hexPreview (List.replicate 65 171)
          = String.intercalate " " (List.replicate 64 "ab") ++ "..." :=
  ⟨by decide, by decide, rfl⟩

/-! ## Header decoder: short and overlong headers -/

theorem parseTCP_protocol (u : Indeterminate) (now : Nat) (mem : Nat → Nat)
    (ip_header packet : Nat) (length : Int) :
    (parseTCP u now mem ip_header packet length).val.protocol = "TCP" := by
  unfold parseTCP
  simp only []
  split
  · rfl
  · split <;> rfl

theorem parseUDP_protocol (u : Indeterminate) (now : Nat) (mem : Nat → Nat)
    (ip_header packet : Nat) (length : Int) :
    (parseUDP u now mem ip_header packet length).val.protocol = "UDP" := by
  unfold parseUDP
  simp only []
  split
  · rfl
  · split <;> rfl

/-- With a negative length `parseTCP` never reaches `bytesToHex`: the signed
test `length > tcp_header_length` fails. -/
theorem parseTCP_payload_of_neg (u : Indeterminate) (now : Nat) (mem : Nat → Nat)
    (ip_header packet : Nat) (length : Int) (hneg : length < 0) :
    (parseTCP u now mem ip_header packet length).val.payload = "" := by
  have hsmall : ¬ (length > (((byteAt mem (packet + 12) >>> 4) * 4 % 256 : Nat) : Int)) := by
    omega
  unfold parseTCP
  simp only [hsmall, if_false]
  split <;> rfl

/-- With a negative length `parseUDP` calls `bytesToHex` with the negative
length `length - 8`, which shows no byte and no marker. -/
theorem parseUDP_payload_of_neg (u : Indeterminate) (now : Nat) (mem : Nat → Nat)
    (ip_header packet : Nat) (length : Int) (hneg : length < 0)
    (hint : -(2 ^ 31) ≤ length + (-8)) :
    (parseUDP u now mem ip_header packet length).val.payload = "" := by
  have hs : toSizeT length = (length + 2 ^ 64).toNat := by
    unfold toSizeT; rw [if_pos hneg]
  have hpl : toInt32 (((length + 2 ^ 64).toNat + 2 ^ 64 - 8) % 2 ^ 64) = length - 8 := by
    unfold toInt32
    split <;> omega
  have hmin : (min (length - 8) 64).toNat = 0 := by omega
  have hle : ¬ (length - 8 > 64) := by omega
  unfold parseUDP
  simp only [hs, sizeof_UDPHeader, hpl]
  split
  · rfl
  · split
    · simp [bytesToHex, DEFAULT_MAX_BYTES, hmin, hle]
    · rfl

/-- C14, evaluated at the failing input: on the 30-byte capture
`shortTcpPacket` (ten bytes after the IP header) `parseTCP` returns before it
assigns the ports, and `PacketInfo info;` did not initialise them: the result
has protocol "TCP" and an empty payload, and its ports are what the stack held,
here 443 and 8080, not 0. -/
theorem parsePacket_short_tcp_ports_unset :
    (parsePacket staleEnv (bufferOf shortTcpPacket) 30).val.protocol = "TCP"
      ∧ (parsePacket staleEnv (bufferOf shortTcpPacket) 30).val.payload = ""
      ∧ (parsePacket staleEnv (bufferOf shortTcpPacket) 30).val.source_port = 443
      ∧ (parsePacket staleEnv (bufferOf shortTcpPacket) 30).val.dest_port = 8080 := by
  decide

/-- What `parsePacket` returns for a TCP packet with fewer than 20 bytes after
the IP header: protocol "TCP", an empty payload, and for the ports the
indeterminate values of the uninitialised members. -/
theorem parsePacket_short_tcp (env : ParseEnv) (mem : Nat → Nat) (n : Nat)
    (hn : 20 ≤ n) (hv : byteAt mem 0 / 16 = 4) (hp : byteAt mem 9 = 6)
    (hlo : 4 * (byteAt mem 0 &&& 0x0F) ≤ n) (hhi : n < 4 * (byteAt mem 0 &&& 0x0F) + 20) :
    (parsePacket env mem n).val.protocol = "TCP"
      ∧ (parsePacket env mem n).val.payload = ""
      ∧ (parsePacket env mem n).val.source_port = env.inner.source_port % 2 ^ 16
      ∧ (parsePacket env mem n).val.dest_port = env.inner.dest_port % 2 ^ 16 := by
  have ho := ip_header_length_eq mem
  have hs : toSizeT ((n : Int) - ((4 * (byteAt mem 0 &&& 0x0F) : Nat) : Int))
      = n - 4 * (byteAt mem 0 &&& 0x0F) := by
    rw [toSizeT_nonneg _ (by omega)]; omega
  have h1 : ¬ n < 20 := by omega
  have h2 : n - 4 * (byteAt mem 0 &&& 0x0F) < 20 := by omega
  unfold parsePacket
  simp only [toSizeT_natCast, sizeof_IPHeader, shr4, hv, hp, ho, h1]
  simp only [parseTCP, hs, sizeof_TCPHeader, h2]
  simp [PacketInfo.declare]

/-- C15: for a buffer of `n ≥ 20` bytes with version nibble 4 whose payload
offset `4 * (byte0 & 0x0F)` exceeds `n`, `parsePacket` classifies the packet by
the protocol byte ("TCP" for 6, "UDP" for 17, "OTHER" otherwise), never returns
the empty protocol of the drop sentinel, and returns an empty payload preview,
whatever the bytes at and past the payload offset are. -/
theorem parsePacket_offset_past_end (env : ParseEnv) (mem : Nat → Nat) (n : Nat)
    (hn : 20 ≤ n) (hv : byteAt mem 0 / 16 = 4) (hpast : n < 4 * (byteAt mem 0 &&& 0x0F)) :
    (parsePacket env mem n).val.protocol
        = (if byteAt mem 9 = 6 then "TCP" else if byteAt mem 9 = 17 then "UDP" else "OTHER")
      ∧ (parsePacket env mem n).val.protocol ≠ ""
      ∧ (parsePacket env mem n).val.payload = "" := by
  have hb := byteAt_lt mem 0
  have hl : byteAt mem 0 &&& 0x0F = byteAt mem 0 % 16 := land15 _
  have ho := ip_header_length_eq mem
  have hneg : (n : Int) - ((4 * (byteAt mem 0 &&& 0x0F) : Nat) : Int) < 0 := by omega
  have hint : -(2 ^ 31) ≤ (n : Int) - ((4 * (byteAt mem 0 &&& 0x0F) : Nat) : Int) + (-8) := by
    omega
  have h1 : ¬ n < 20 := by omega
  have hproto : (parsePacket env mem n).val.protocol
      = (if byteAt mem 9 = 6 then "TCP" else if byteAt mem 9 = 17 then "UDP" else "OTHER") := by
    unfold parsePacket
    simp only [toSizeT_natCast, sizeof_IPHeader, shr4, hv, ho, h1]
    by_cases h6 : byteAt mem 9 = 6
    · simp [h6, parseTCP_protocol]
    · by_cases h17 : byteAt mem 9 = 17
      · simp [h17, parseUDP_protocol]
      · simp [h6, h17]
  refine ⟨hproto, ?_, ?_⟩
  · rw [hproto]
    split
    · decide
    · split <;> decide
  · unfold parsePacket
    simp only [toSizeT_natCast, sizeof_IPHeader, shr4, hv, ho, h1]
    by_cases h6 : byteAt mem 9 = 6
    · simp only [h6, if_true]
      exact parseTCP_payload_of_neg _ _ _ _ _ _ hneg
    · by_cases h17 : byteAt mem 9 = 17
      · simp only [h17, if_true]
        exact parseUDP_payload_of_neg _ _ _ _ _ _ hneg hint
      · simp [h6, h17, PacketInfo.declare]

theorem parsePacket_offset_past_end_witness :
    (20 ≤ 20 ∧ byteAt optionsPastEnd 0 / 16 = 4 ∧ 20 < 4 * (byteAt optionsPastEnd 0 &&& 0x0F))
      ∧ (parsePacket zeroEnv optionsPastEnd (20 : Nat)).val.protocol
          = (if byteAt optionsPastEnd 9 = 6 then "TCP"
              else if byteAt optionsPastEnd 9 = 17 then "UDP" else "OTHER")
      ∧ (parsePacket zeroEnv optionsPastEnd (20 : Nat)).val.protocol ≠ ""
      ∧ (parsePacket zeroEnv optionsPastEnd (20 : Nat)).val.payload = "" :=
  ⟨⟨by decide, by decide, by decide⟩,
    parsePacket_offset_past_end zeroEnv optionsPastEnd 20 (by decide) (by decide) (by decide)⟩

/-! ## Forwarder: the socket of a flow across other calls -/

section Table

variable {κ ν : Type} [DecidableEq κ]

theorem mapFind_mapAssign_other (key other : κ) (v : ν) (m : List (κ × ν)) (h : key ≠ other) :
    mapFind key (mapAssign other v m) = mapFind key m := by
  induction m with
  | nil => rfl
  | cons e rest ih =>
    obtain ⟨k, x⟩ := e
    by_cases hk : k = other
    · have hkk : ¬ other = key := fun e => h e.symm
      simp [mapFind, mapAssign, hk, hkk]
    · simp [mapFind, mapAssign, hk, ih]

theorem mapFind_append_other (key other : κ) (v : ν) (m : List (κ × ν)) (h : key ≠ other) :
    mapFind key (m ++ [(other, v)]) = mapFind key m := by
  induction m with
  | nil =>
    have hkk : ¬ other = key := fun e => h e.symm
    simp [mapFind, hkk]
  | cons e rest ih =>
    obtain ⟨k, x⟩ := e
    simp [mapFind, ih]

theorem mapFind_mapPut_other (key other : κ) (v : ν) (m : List (κ × ν)) (h : key ≠ other) :
    mapFind key (mapPut other v m) = mapFind key m := by
  unfold mapPut
  cases mapFind other m with
  | some w => exact mapFind_mapAssign_other key other v m h
  | none => exact mapFind_append_other key other v m h

end Table

/-! ### Calls for other identities leave a flow alone -/

theorem getSession_other (s : System) (key other : SessionKey) (now : Nat) (h : key ≠ other) :
    mapFind key (getSession s other now).2.sessions_ = mapFind key s.sessions_ := by
  unfold getSession
  cases mapFind other s.sessions_ with
  | some v => rfl
  | none => exact mapFind_mapPut_other key other _ _ h

theorem updateSession_other (s : System) (key other : SessionKey) (bytes : Int) (out : Bool)
    (now : Nat) (h : key ≠ other) :
    mapFind key (updateSession s other bytes out now).sessions_ = mapFind key s.sessions_ := by
  unfold updateSession
  cases mapFind other s.sessions_ with
  | none => rfl
  | some v => exact mapFind_mapAssign_other key other _ _ h

theorem closeSession_other (s : System) (key other : SessionKey) (h : key ≠ other) :
    mapFind key (closeSession s other).sessions_ = mapFind key s.sessions_
      ∧ (closeSession s other).readers = s.readers := by
  unfold closeSession
  cases mapFind other s.sessions_ with
  | none => exact ⟨rfl, rfl⟩
  | some v => exact ⟨mapFind_mapErase_other other key _ h, rfl⟩

theorem setSocketFd_other (s : System) (key other : SessionKey) (fd : Int) (h : key ≠ other) :
    mapFind key (setSocketFd s other fd).sessions_ = mapFind key s.sessions_
      ∧ (setSocketFd s other fd).readers = s.readers := by
  unfold setSocketFd
  cases mapFind other s.sessions_ with
  | none => exact ⟨rfl, rfl⟩
  | some v => exact ⟨mapFind_mapAssign_other key other _ _ h, rfl⟩

theorem createSocket_table (env : ForwardEnv) (s : System) (protocol : String) :
    (createSocket env s protocol).2.sessions_ = s.sessions_
      ∧ (createSocket env s protocol).2.readers = s.readers := by
  unfold createSocket
  split
  · simp only []
    split <;> exact ⟨rfl, rfl⟩
  · exact ⟨rfl, rfl⟩

theorem sendAndRecord_other (env : ForwardEnv) (s : System) (key other : SessionKey) (fd : Int)
    (h : key ≠ other) :
    mapFind key (sendAndRecord env s other fd).2.sessions_ = mapFind key s.sessions_
      ∧ (sendAndRecord env s other fd).2.readers = s.readers := by
  unfold sendAndRecord
  simp only []
  split
  · exact ⟨updateSession_other _ key other _ _ _ h, (updateSession_frame _ other _ _ _).2.2.1⟩
  · exact ⟨rfl, rfl⟩

/-- A `forwardPacket` for another identity leaves the flow of `key` as it was
and starts no reader for `key`. -/
theorem forwardPacket_other (env : ForwardEnv) (s : System) (key other : SessionKey)
    (h : key ≠ other) :
    mapFind key (forwardPacket env s other).2.sessions_ = mapFind key s.sessions_
      ∧ readersOf key (forwardPacket env s other).2 = readersOf key s := by
  have hg := getSession_other s key other env.now_get h
  have hgr := (getSession_frame s other env.now_get).2.2.1
  have hc := createSocket_table env (getSession s other env.now_get).2 other.protocol
  have hs1 := setSocketFd_other (createSocket env (getSession s other env.now_get).2
    other.protocol).2 key other (createSocket env (getSession s other env.now_get).2
    other.protocol).1 h
  have hno : ∀ fd : Int, decide ((fd, other).2 = key) = false := by
    intro fd
    exact decide_eq_false (fun e => h e.symm)
  unfold forwardPacket readersOf
  simp only []
  split
  · split
    · rw [hs1.1, hs1.2, hc.1, hc.2, hg, hgr]
      exact ⟨rfl, rfl⟩
    · split
      · have hs2 := setSocketFd_other (setSocketFd (createSocket env
          (getSession s other env.now_get).2 other.protocol).2 other (createSocket env
          (getSession s other env.now_get).2 other.protocol).1) key other (-1) h
        simp only []
        rw [hs2.1, hs2.2, hs1.1, hs1.2, hc.1, hc.2, hg, hgr]
        exact ⟨rfl, rfl⟩
      · have hsend := sendAndRecord_other env
          { setSocketFd (createSocket env (getSession s other env.now_get).2 other.protocol).2
              other (createSocket env (getSession s other env.now_get).2 other.protocol).1 with
            readers := (setSocketFd (createSocket env (getSession s other env.now_get).2
              other.protocol).2 other (createSocket env (getSession s other env.now_get).2
              other.protocol).1).readers ++ [((createSocket env
                (getSession s other env.now_get).2 other.protocol).1, other)] }
          key other (createSocket env (getSession s other env.now_get).2 other.protocol).1 h
        rw [hsend.1, hsend.2]
        simp only []
        rw [hs1.1, hs1.2, hc.1, hc.2, hg, hgr, List.filter_append]
        simp [hno]
  · have hsend := sendAndRecord_other env (getSession s other env.now_get).2 key other
      (getSession s other env.now_get).1.socket_fd h
    rw [hsend.1, hsend.2, hg, hgr]
    exact ⟨rfl, rfl⟩

/-- A call that is not `closeSession(key)`, a sweep or a reset keeps the socket
stored on the flow of `key` and starts no reader for `key`. -/
theorem runCall_keeps_socket (key : SessionKey) (fd : Int) (hfd : fd ≠ -1) (st : System)
    (call : Call) (hcall : releasesFlow key call = false)
    (h : ∃ v, mapFind key st.sessions_ = some v ∧ v.socket_fd = fd) :
    (∃ v, mapFind key (runCall st call).sessions_ = some v ∧ v.socket_fd = fd)
      ∧ readersOf key (runCall st call) = readersOf key st := by
  obtain ⟨v, hv, hvfd⟩ := h
  cases call with
  | get other now =>
    refine ⟨⟨v, ?_, hvfd⟩, ?_⟩
    · by_cases hk : key = other
      · subst hk
        simp [runCall, getSession, hv]
      · exact (getSession_other st key other now hk).trans hv
    · unfold readersOf runCall
      rw [(getSession_frame st other now).2.2.1]
  | update other bytes out now =>
    refine ⟨?_, ?_⟩
    · by_cases hk : key = other
      · subst hk
        obtain ⟨v', hv', hfd'⟩ := updateSession_keeps_socket st key bytes out now v hv
        exact ⟨v', hv', hfd'.trans hvfd⟩
      · exact ⟨v, (updateSession_other st key other bytes out now hk).trans hv, hvfd⟩
    · unfold readersOf runCall
      rw [(updateSession_frame st other bytes out now).2.2.1]
  | close other =>
    have hk : key ≠ other := by
      intro e
      simp [releasesFlow, e] at hcall
    have hc := closeSession_other st key other hk
    refine ⟨⟨v, hc.1.trans hv, hvfd⟩, ?_⟩
    unfold readersOf runCall
    rw [hc.2]
  | sweep now => simp [releasesFlow] at hcall
  | observeProtocol protocol bytes => exact ⟨⟨v, hv, hvfd⟩, rfl⟩
  | reset => simp [releasesFlow] at hcall
  | forward env other =>
    by_cases hk : key = other
    · subst hk
      have hne : v.socket_fd ≠ -1 := by rw [hvfd]; exact hfd
      have h2 := forwardPacket_connected env st key v hv hne
      obtain ⟨_, _, b3, _, v', hv', hfd'⟩ := sendAndRecord_effect env st key v.socket_fd v hv
      rw [← h2] at b3 hv'
      refine ⟨⟨v', hv', hfd'.trans hvfd⟩, ?_⟩
      unfold readersOf runCall
      rw [b3]
    · have hf := forwardPacket_other env st key other hk
      exact ⟨⟨v, hf.1.trans hv, hvfd⟩, hf.2⟩

/-- A run of calls none of which is `closeSession(key)`, a sweep or a reset
keeps the socket stored on the flow of `key` and starts no reader for `key`. -/
theorem runCalls_keeps_socket (key : SessionKey) (fd : Int) (hfd : fd ≠ -1)
    (calls : List Call) :
    ∀ st : System, (∀ call ∈ calls, releasesFlow key call = false) →
      (∃ v, mapFind key st.sessions_ = some v ∧ v.socket_fd = fd) →
      (∃ v, mapFind key (runCalls st calls).sessions_ = some v ∧ v.socket_fd = fd)
        ∧ readersOf key (runCalls st calls) = readersOf key st := by
  induction calls with
  | nil => intro st _ h; exact ⟨h, rfl⟩
  | cons call rest ih =>
    intro st hcalls h
    have hstep := runCall_keeps_socket key fd hfd st call
      (hcalls call (List.mem_cons_self _ _)) h
    have hrest := ih (runCall st call)
      (fun c hc => hcalls c (List.mem_cons_of_mem _ hc)) hstep.1
    exact ⟨hrest.1, hrest.2.trans hstep.2⟩

/-- C11: for an identity `key` with protocol "TCP" or "UDP" on which no socket
is stored yet, if the first `forwardPacket` creates a socket `fd` and connects
it, then `fd` is stored on the flow and one reader is started for it; after any
run of calls in between that holds no `closeSession(key)`, no sweep and no
reset (inbound and outbound accounting for any identity, protocol statistics,
lookups, forwards and closes of other identities, further forwards of `key`),
`fd` is still on the flow, and a second `forwardPacket` for `key` creates no
socket, starts no reader, closes nothing, sends on `fd` and leaves `fd` on the
flow, whatever its system calls would return.  Over the whole run exactly one
reader, the one on `fd`, was started for `key`. -/
theorem forwardPacket_reuses_socket (env1 env2 : ForwardEnv) (s : System) (key : SessionKey)
    (between : List Call)
    (hproto : key.protocol = "TCP" ∨ key.protocol = "UDP")
    (hfirst : ∀ session, mapFind key s.sessions_ = some session → session.socket_fd = -1)
    (hsock : env1.socket_result ≠ -1) (hconn : connectToDestination env1 = true)
    (hbetween : ∀ call ∈ between, releasesFlow key call = false) :
    (forwardPacket env1 s key).2.opened = s.opened ++ [env1.socket_result]
      ∧ (∃ flow, mapFind key (forwardPacket env1 s key).2.sessions_ = some flow
          ∧ flow.socket_fd = env1.socket_result)
      ∧ (∃ flow, mapFind key (runCalls (forwardPacket env1 s key).2 between).sessions_
            = some flow
          ∧ flow.socket_fd = env1.socket_result)
      ∧ (forwardPacket env2 (runCalls (forwardPacket env1 s key).2 between) key).2.opened
          = (runCalls (forwardPacket env1 s key).2 between).opened
      ∧ (forwardPacket env2 (runCalls (forwardPacket env1 s key).2 between) key).2.readers
          = (runCalls (forwardPacket env1 s key).2 between).readers
      ∧ (forwardPacket env2 (runCalls (forwardPacket env1 s key).2 between) key).2.closed
          = (runCalls (forwardPacket env1 s key).2 between).closed
      ∧ (forwardPacket env2 (runCalls (forwardPacket env1 s key).2 between) key).2.sent_on
          = (runCalls (forwardPacket env1 s key).2 between).sent_on ++ [env1.socket_result]
      ∧ (∃ flow,
          mapFind key
              (forwardPacket env2 (runCalls (forwardPacket env1 s key).2 between) key).2.sessions_
            = some flow
          ∧ flow.socket_fd = env1.socket_result)
      ∧ readersOf key (forwardPacket env2 (runCalls (forwardPacket env1 s key).2 between) key).2
          = readersOf key s ++ [(env1.socket_result, key)] := by
  have hfind := getSession_find s key env1.now_get
  have hframe := getSession_frame s key env1.now_get
  have h1 := forwardPacket_first env1 s key hproto hfirst hsock hconn
  have hinst := mapFind_mapAssign_self key
    { (getSession s key env1.now_get).1 with socket_fd := env1.socket_result }
    (getSession s key env1.now_get).2.sessions_ _ hfind
  obtain ⟨a1, _, a3, _, v1, hv1, hfd1⟩ := sendAndRecord_effect env1
    { (getSession s key env1.now_get).2 with
      sessions_ := mapAssign key
        { (getSession s key env1.now_get).1 with socket_fd := env1.socket_result }
        (getSession s key env1.now_get).2.sessions_
      opened := (getSession s key env1.now_get).2.opened ++ [env1.socket_result]
      readers := (getSession s key env1.now_get).2.readers ++ [(env1.socket_result, key)] }
    key env1.socket_result _ hinst
  rw [← h1] at a1 a3 hv1
  have hfd1' : v1.socket_fd = env1.socket_result := hfd1
  obtain ⟨⟨vm, hvm, hfdm⟩, hreaders⟩ := runCalls_keeps_socket key env1.socket_result hsock
    between (forwardPacket env1 s key).2 hbetween ⟨v1, hv1, hfd1'⟩
  have hne : vm.socket_fd ≠ -1 := by rw [hfdm]; exact hsock
  have h2 := forwardPacket_connected env2 (runCalls (forwardPacket env1 s key).2 between) key
    vm hvm hne
  obtain ⟨b1, b2, b3, b4, v2, hv2, hfd2⟩ := sendAndRecord_effect env2
    (runCalls (forwardPacket env1 s key).2 between) key vm.socket_fd vm hvm
  rw [← h2] at b1 b2 b3 b4 hv2
  refine ⟨?_, ⟨v1, hv1, hfd1'⟩, ⟨vm, hvm, hfdm⟩, b1, b3, b2, ?_, ⟨v2, hv2, hfd2.trans hfdm⟩, ?_⟩
  · rw [a1]
    simp only []
    rw [hframe.1]
  · rw [b4, hfdm]
  · have hstart : readersOf key (forwardPacket env1 s key).2
        = readersOf key s ++ [(env1.socket_result, key)] := by
      unfold readersOf
      rw [a3]
      simp only []
      rw [hframe.2.2.1, List.filter_append]
      simp
    unfold readersOf at hreaders hstart ⊢
    rw [b3, hreaders, hstart]

theorem forwardPacket_reuses_socket_witness :
    ((tcpKey.protocol = "TCP" ∨ tcpKey.protocol = "UDP")
        ∧ (∀ session, mapFind tcpKey System.init.sessions_ = some session →
            session.socket_fd = -1)
        ∧ goodEnv.socket_result ≠ -1 ∧ connectToDestination goodEnv = true
        ∧ (∀ call ∈ betweenCalls, releasesFlow tcpKey call = false))
      ∧ (forwardPacket goodEnv System.init tcpKey).2.opened = [7]
      ∧ (runCalls (forwardPacket goodEnv System.init tcpKey).2 betweenCalls).opened = [7, 8]
      ∧ (runCalls (forwardPacket goodEnv System.init tcpKey).2 betweenCalls).closed = [8]
      ∧ (forwardPacket goodEnv
            (runCalls (forwardPacket goodEnv System.init tcpKey).2 betweenCalls) tcpKey).2.opened
          = (runCalls (forwardPacket goodEnv System.init tcpKey).2 betweenCalls).opened
      ∧ (forwardPacket goodEnv
            (runCalls (forwardPacket goodEnv System.init tcpKey).2 betweenCalls) tcpKey).2.sent_on
          = [7, 8, 7, 7]
      ∧ (forwardPacket goodEnv
            (runCalls (forwardPacket goodEnv System.init tcpKey).2 betweenCalls) tcpKey).2.readers
          = [(7, tcpKey), (8, udpKey)] :=
  ⟨⟨by decide, by intro session h; simp [System.init, mapFind] at h, by decide, by decide,
      by decide⟩,
    (forwardPacket_reuses_socket goodEnv goodEnv System.init tcpKey betweenCalls (by decide)
      (by intro session h; simp [System.init, mapFind] at h) (by decide) (by decide)
      (by decide)).1,
    by decide, by decide,
    (forwardPacket_reuses_socket goodEnv goodEnv System.init tcpKey betweenCalls (by decide)
      (by intro session h; simp [System.init, mapFind] at h) (by decide) (by decide)
      (by decide)).2.2.2.1,
    by decide, by decide⟩

end AndroNet
